import Mathlib

/-!
Shallow embedding of the crochet-pattern-generator core (Rust sources under
src/wasm/crochet-core, src/wasm/src/bindings.rs) and proofs about it.

Modelling conventions, used throughout:

* Rust `f64` arithmetic is modelled by exact rational arithmetic (`ℚ`).
  Numeric literals such as `0.5`, `0.1`, `1e-6`, `1e-10` are modelled by the
  rationals they denote.  The `f64` constant `std::f64::consts::PI` is the
  exact rational `piF` below (the IEEE-754 double nearest to pi).
* Transcendental `f64` functions (`exp`, `ln`, `sqrt`) and the two numeric
  arc-length subroutines of sampling.rs (`segment_arc_length`,
  `find_t_for_arc_length`, whose adaptive recursion has no structural
  termination measure) are abstracted into an `Oracles` record; every theorem
  below quantifies over the oracle record, so the results hold for every
  value those float computations could return.
* The ChaCha8 pseudorandom generator (external crate `rand_chacha`) is
  modelled by an abstract word stream `rnd : ℕ → ℕ` inside `Oracles`
  together with a read position threaded through the computation; seeding
  with the fixed value 42 corresponds to one particular fixed stream, and
  all theorems hold for every fixed stream.
* Rust `usize`/`u32` values are modelled by `ℕ`, `i32` by `ℤ` (no value in
  this code approaches the overflow range).  `x as usize` on an `f64` is
  the saturating cast: negative values map to 0.
* The `f64` field `angular_position` (always of the form `2*pi*i/L`) is
  modelled by the turn fraction `i / L : ℚ`, of which the float value is a
  fixed strictly monotone function on `[0, 1)`.
-/

/-- Record of abstracted floating-point subroutines and the pseudorandom
word stream (see the module docstring). -/
structure Oracles where
  expO : ℚ → ℚ
  lnO : ℚ → ℚ
  sqrtO : ℚ → ℚ
  arcLenO : ℚ × ℚ → ℚ × ℚ → ℚ × ℚ → ℚ × ℚ → ℚ
  findTO : ℚ × ℚ → ℚ × ℚ → ℚ × ℚ → ℚ × ℚ → ℚ → ℚ
  rnd : ℕ → ℕ

/-- Exact value of the IEEE-754 double nearest to pi
(`std::f64::consts::PI` = 884279719003555 / 2^48). -/
def piF : ℚ := 884279719003555 / 281474976710656

/-- Rust `f64::round`: round half away from zero. -/
def roundF (q : ℚ) : ℤ :=
  if 0 ≤ q then ⌊q + 1/2⌋ else -⌊-q + 1/2⌋

/-- Rust `f64 as usize`: truncating, saturating cast (negative to 0). -/
def f64ToUsize (q : ℚ) : ℕ := ⌊q⌋.toNat

/-- Rust `f64::max` (on non-NaN values). -/
def fmax (a b : ℚ) : ℚ := if a < b then b else a

/-- Rust `f64::min` (on non-NaN values). -/
def fmin (a b : ℚ) : ℚ := if b < a then b else a

/-- Rust `round() as usize` composite used by stitch_count.rs. -/
def roundToUsize (q : ℚ) : ℕ := (roundF q).toNat

/-- Stitch type enumeration (crochet-types/src/lib.rs). -/
inductive StitchType where
  | SC
  | INC
  | DEC
  | INVDEC
deriving DecidableEq, Repr

/-- Stitch instruction with position (crochet-types/src/lib.rs).
The f64 `angular_position` (always `2*pi*i/L`) is modelled by the turn
fraction `i/L`. -/
structure StitchInstruction where
  stitch_type : StitchType
  angularTurns : ℚ
  stitch_index : ℕ
deriving DecidableEq, Repr

/-- Single row instruction (crochet-types/src/lib.rs). -/
structure Row where
  row_number : ℕ
  total_stitches : ℕ
  pattern : List StitchInstruction
deriving DecidableEq, Repr

/-- Pattern metadata (crochet-types/src/lib.rs). -/
structure PatternMetadata where
  total_rows : ℕ
  total_stitches : ℕ
  estimated_time_minutes : ℚ
  yarn_length_meters : ℚ
deriving DecidableEq, Repr

/-- Complete generated pattern (crochet-types/src/lib.rs). -/
structure CrochetPattern where
  rows : List Row
  metadata : PatternMetadata
deriving DecidableEq, Repr

/-- Error type for pattern generation (crochet-types/src/lib.rs). -/
inductive PatternError where
  | InvalidProfileCurve (msg : String)
  | InvalidConfiguration (msg : String)
  | OptimizationFailure (msg : String)
  | InternalError (msg : String)
deriving DecidableEq, Repr

/-- 2D point in drawing space (crochet-types/src/lib.rs). -/
structure Point2D where
  x : ℚ
  y : ℚ
deriving DecidableEq, Repr

/-- Cubic Bezier spline segment (crochet-types/src/lib.rs). -/
structure SplineSegment where
  start : Point2D
  control1 : Point2D
  control2 : Point2D
  seg_end : Point2D
deriving DecidableEq, Repr

/-- Complete user-drawn profile (crochet-types/src/lib.rs). -/
structure ProfileCurve where
  segments : List SplineSegment
  start_radius : ℚ
  end_radius : ℚ
deriving DecidableEq, Repr

/-- Physical yarn specifications (crochet-types/src/lib.rs). -/
structure YarnSpec where
  gauge_stitches_per_cm : ℚ
  gauge_rows_per_cm : ℚ
  recommended_hook_size_mm : ℚ
deriving DecidableEq, Repr

/-- Dimensions in real-world units (crochet-types/src/lib.rs). -/
structure AmigurumiConfig where
  total_height_cm : ℚ
  yarn : YarnSpec
deriving DecidableEq, Repr

/-- SplineSegment::evaluate: cubic Bezier evaluation at parameter t. -/
def SplineSegment.evaluate (s : SplineSegment) (t : ℚ) : Point2D :=
  let t2 := t * t
  let t3 := t2 * t
  let mt := 1 - t
  let mt2 := mt * mt
  let mt3 := mt2 * mt
  { x := mt3 * s.start.x + 3 * mt2 * t * s.control1.x
        + 3 * mt * t2 * s.control2.x + t3 * s.seg_end.x,
    y := mt3 * s.start.y + 3 * mt2 * t * s.control1.y
        + 3 * mt * t2 * s.control2.y + t3 * s.seg_end.y }

/-- SplineSegment::derivative: first derivative of the Bezier at t. -/
def SplineSegment.derivative (s : SplineSegment) (t : ℚ) : Point2D :=
  let t2 := t * t
  let mt := 1 - t
  let mt2 := mt * mt
  { x := 3 * mt2 * (s.control1.x - s.start.x)
        + 6 * mt * t * (s.control2.x - s.control1.x)
        + 3 * t2 * (s.seg_end.x - s.control2.x),
    y := 3 * mt2 * (s.control1.y - s.start.y)
        + 6 * mt * t * (s.control2.y - s.control1.y)
        + 3 * t2 * (s.seg_end.y - s.control2.y) }

/-- Point2D::distance_to, with the `f64::sqrt` call abstracted into the
oracle record. -/
def Point2D.distance_to (O : Oracles) (p q : Point2D) : ℚ :=
  let dx := p.x - q.x
  let dy := p.y - q.y
  O.sqrtO (dx * dx + dy * dy)

/-- Helper building one StitchInstruction at sequence position i of a row
worked over L previous stitches (angle 2*pi*i/L, modelled as turns i/L). -/
def mkInstr (ty : StitchType) (i L : ℕ) : StitchInstruction :=
  { stitch_type := ty, angularTurns := (i : ℚ) / L, stitch_index := i }

/-- Increase branch of generate_row_pattern (generator.rs, delta > 0): the
for-loop over positions 0..prev placing INC while the running count lags
the evenly-distributed target.  The loop index i strictly increases each
iteration, so running it with fuel p from i = 0 is exact. -/
def incLoop (p d : ℕ) : ℕ → ℕ → ℕ → List StitchInstruction
  | 0, _, _ => []
  | fuel + 1, i, inc =>
    if i < p then
      let target := ((i + 1) * d + p - 1) / p
      if inc < target then
        mkInstr .INC i p :: incLoop p d fuel (i + 1) (inc + 1)
      else
        mkInstr .SC i p :: incLoop p d fuel (i + 1) inc
    else []

/-- Decrease branch of generate_row_pattern (generator.rs, delta < 0): the
while-loop placing INVDEC (consuming two previous stitches) while the
running count lags the target, guarded so the final stitch is never the
first leg of a decrease.  The loop index i strictly increases each
iteration, so running it with fuel p from i = 0 is exact. -/
def decLoop (p d : ℕ) : ℕ → ℕ → ℕ → List StitchInstruction
  | 0, _, _ => []
  | fuel + 1, i, dc =>
    if i < p then
      let target := ((i + 1) * d + p - 1) / p
      if dc < target ∧ i + 1 < p then
        mkInstr .INVDEC i p :: decLoop p d fuel (i + 2) (dc + 1)
      else
        mkInstr .SC i p :: decLoop p d fuel (i + 1) dc
    else []

/-- generate_row_pattern (generator.rs lines 276-364). -/
def generate_row_pattern (_row_number prev_stitches total_stitches : ℕ) :
    List StitchInstruction :=
  let delta : ℤ := (total_stitches : ℤ) - (prev_stitches : ℤ)
  if delta = 0 then
    (List.range prev_stitches).map (fun i => mkInstr .SC i prev_stitches)
  else if 0 < delta then
    incLoop prev_stitches (total_stitches - prev_stitches) prev_stitches 0 0
  else
    decLoop prev_stitches (prev_stitches - total_stitches) prev_stitches 0 0

/-- Previous-row stitches consumed by one instruction
(validate_pattern, generator.rs lines 372-387). -/
def consumesOf : StitchType → ℕ
  | .SC => 1
  | .INC => 1
  | .DEC => 2
  | .INVDEC => 2

/-- Current-row stitches produced by one instruction
(validate_pattern, generator.rs lines 372-387). -/
def producesOf : StitchType → ℕ
  | .SC => 1
  | .INC => 2
  | .DEC => 1
  | .INVDEC => 1

/-- Total previous-row stitches consumed by an instruction sequence. -/
def consumedStitches (l : List StitchInstruction) : ℕ :=
  (l.map (fun s => consumesOf s.stitch_type)).sum

/-- Total current-row stitches produced by an instruction sequence. -/
def producedStitches (l : List StitchInstruction) : ℕ :=
  (l.map (fun s => producesOf s.stitch_type)).sum

/-- validate_pattern (generator.rs lines 367-410). -/
def validate_pattern (row : Row) (prev_row_stitches : ℕ) :
    Except PatternError Unit :=
  if consumedStitches row.pattern ≠ prev_row_stitches then
    .error (.InternalError "pattern consumption mismatch")
  else if producedStitches row.pattern ≠ row.total_stitches then
    .error (.InternalError "pattern production mismatch")
  else
    .ok ()

/-- Loop body of calculate_stitch_counts for rows after the first
(stitch_count.rs lines 30-50), threading the previous row's count. -/
def stitchCountsLoop (g : ℚ) : List ℚ → ℕ → List ℕ
  | [], _ => []
  | r :: rest, prev =>
    let radius := fmax r (1/10)
    let circumference := 2 * piF * radius
    let ideal_stitches := circumference * g
    let s0 := roundToUsize ideal_stitches
    let max_delta := f64ToUsize (fmax ((prev : ℚ) / 6) 6)
    let s1 := if prev + max_delta < s0 then prev + max_delta
              else if s0 + max_delta < prev then prev - max_delta
              else s0
    let s2 := max s1 6
    s2 :: stitchCountsLoop g rest s2

/-- calculate_stitch_counts (stitch_count.rs lines 5-53).  The NaN/infinity
guard of the source is vacuous over `ℚ` and is omitted. -/
def calculate_stitch_counts (radii : List ℚ) (config : AmigurumiConfig) :
    List ℕ :=
  match radii with
  | [] => []
  | r0 :: rest =>
    let g := config.yarn.gauge_stitches_per_cm
    let first_radius := fmax r0 (1/2)
    let first_circumference := 2 * piF * first_radius
    let first0 := roundToUsize (first_circumference * g)
    let first_stitches := max first0 6
    first_stitches :: stitchCountsLoop g rest first_stitches

/-- Number of instructions of a given stitch type in a sequence. -/
def countTy (ty : StitchType) (l : List StitchInstruction) : ℕ :=
  (l.filter (fun s => s.stitch_type == ty)).length

/-- Even-distribution target used by both loops of generate_row_pattern:
the number of special stitches that should have been placed once position
i of the previous row is reached (`(i * d + p - 1) / p`, a ceiling
division). -/
def targetCount (p d i : ℕ) : ℕ := (i * d + p - 1) / p

lemma targetCount_le_iff {p d i k : ℕ} (hp : 0 < p) :
    targetCount p d i ≤ k ↔ i * d ≤ k * p := by
  unfold targetCount
  rw [Nat.div_le_iff_le_mul_add_pred hp]
  have h := Nat.mul_comm p k
  omega

lemma le_targetCount_iff {p d i k : ℕ} (hp : 0 < p) :
    k ≤ targetCount p d i ↔ k * p ≤ i * d + p - 1 := by
  unfold targetCount
  rw [Nat.le_div_iff_mul_le hp]

lemma targetCount_zero {p d : ℕ} (hp : 0 < p) : targetCount p d 0 = 0 := by
  have h := (@targetCount_le_iff p d 0 0 hp).mpr (by omega)
  omega

lemma targetCount_self {p d : ℕ} (hp : 0 < p) : targetCount p d p = d := by
  have h1 : targetCount p d p ≤ d := by
    rw [targetCount_le_iff hp]
    exact Nat.le_of_eq (Nat.mul_comm p d)
  have h2 : d ≤ targetCount p d p := by
    rw [le_targetCount_iff hp]
    have h := Nat.mul_comm d p
    omega
  omega

lemma targetCount_mono {p d i j : ℕ} (h : i ≤ j) :
    targetCount p d i ≤ targetCount p d j :=
  Nat.div_le_div_right (by have := Nat.mul_le_mul_right d h; omega)

lemma targetCount_succ_le {p d i : ℕ} (hp : 0 < p) (hd : d ≤ p) :
    targetCount p d (i + 1) ≤ targetCount p d i + 1 := by
  rw [targetCount_le_iff hp]
  have h1 : i * d ≤ targetCount p d i * p := (targetCount_le_iff hp).mp le_rfl
  have e1 : (i + 1) * d = i * d + d := by ring
  have e2 : (targetCount p d i + 1) * p = targetCount p d i * p + p := by ring
  omega

lemma targetCount_add_two_le {p d i : ℕ} (hp : 0 < p) (h2 : 2 * d ≤ p) :
    targetCount p d (i + 2) ≤ targetCount p d i + 1 := by
  rw [targetCount_le_iff hp]
  have h1 : i * d ≤ targetCount p d i * p := (targetCount_le_iff hp).mp le_rfl
  have e1 : (i + 2) * d = i * d + 2 * d := by ring
  have e2 : (targetCount p d i + 1) * p = targetCount p d i * p + p := by ring
  omega

lemma targetCount_pred {p d : ℕ} (hd : 0 < d) (hdp : d + 1 ≤ p) :
    targetCount p d (p - 1) = d := by
  have hp : 0 < p := by omega
  have h1 : targetCount p d (p - 1) ≤ d := by
    rw [targetCount_le_iff hp]
    have h := Nat.mul_le_mul_right d (Nat.sub_le p 1)
    have hc := Nat.mul_comm p d
    omega
  have h2 : d ≤ targetCount p d (p - 1) := by
    rw [le_targetCount_iff hp]
    have e : (p - 1) * d = p * d - d := by
      rw [Nat.sub_mul, Nat.one_mul]
    have hge : d ≤ p * d := Nat.le_mul_of_pos_left d hp
    have hc := Nat.mul_comm d p
    omega
  omega

lemma countTy_nil (ty : StitchType) : countTy ty [] = 0 := rfl

lemma countTy_cons (ty : StitchType) (s : StitchInstruction)
    (l : List StitchInstruction) :
    countTy ty (s :: l) = (if s.stitch_type = ty then 1 else 0) + countTy ty l := by
  simp only [countTy, List.filter_cons, beq_iff_eq]
  split
  · simp [Nat.add_comm]
  · simp

lemma consumedStitches_nil : consumedStitches [] = 0 := rfl

lemma consumedStitches_cons (s : StitchInstruction) (l : List StitchInstruction) :
    consumedStitches (s :: l) = consumesOf s.stitch_type + consumedStitches l := by
  simp [consumedStitches]

lemma producedStitches_nil : producedStitches [] = 0 := rfl

lemma producedStitches_cons (s : StitchInstruction) (l : List StitchInstruction) :
    producedStitches (s :: l) = producesOf s.stitch_type + producedStitches l := by
  simp [producedStitches]

lemma incLoop_length {p d : ℕ} :
    ∀ fuel i inc, p ≤ fuel + i → i ≤ p →
      (incLoop p d fuel i inc).length = p - i := by
  intro fuel
  induction fuel with
  | zero =>
    intro i inc hf hi
    have : i = p := by omega
    simp [incLoop, this]
  | succ n ih =>
    intro i inc hf hi
    simp only [incLoop]
    by_cases hip : i < p
    · simp only [hip, if_true]
      split
      · simp [ih (i + 1) (inc + 1) (by omega) (by omega)]
        omega
      · simp [ih (i + 1) inc (by omega) (by omega)]
        omega
    · have : i = p := by omega
      simp [hip, this]

lemma incLoop_consumed {p d : ℕ} :
    ∀ fuel i inc, p ≤ fuel + i → i ≤ p →
      consumedStitches (incLoop p d fuel i inc) = p - i := by
  intro fuel
  induction fuel with
  | zero =>
    intro i inc hf hi
    have : i = p := by omega
    simp [incLoop, this, consumedStitches_nil]
  | succ n ih =>
    intro i inc hf hi
    simp only [incLoop]
    by_cases hip : i < p
    · simp only [hip, if_true]
      split
      · rw [consumedStitches_cons, ih (i + 1) (inc + 1) (by omega) (by omega)]
        simp [mkInstr, consumesOf]
        omega
      · rw [consumedStitches_cons, ih (i + 1) inc (by omega) (by omega)]
        simp [mkInstr, consumesOf]
        omega
    · have : i = p := by omega
      simp [hip, this, consumedStitches_nil]

lemma incLoop_produced {p d : ℕ} (hp : 0 < p) (hd : d ≤ p) :
    ∀ fuel i inc, p ≤ fuel + i → i ≤ p → inc = targetCount p d i →
      producedStitches (incLoop p d fuel i inc) = (p - i) + (d - inc) := by
  intro fuel
  induction fuel with
  | zero =>
    intro i inc hf hi hinv
    have hip : i = p := by omega
    subst hip
    rw [targetCount_self hp] at hinv
    simp [incLoop, producedStitches_nil, hinv]
  | succ n ih =>
    intro i inc hf hi hinv
    simp only [incLoop]
    by_cases hip : i < p
    · simp only [hip, if_true]
      have htgt : ((i + 1) * d + p - 1) / p = targetCount p d (i + 1) := rfl
      have hmono : targetCount p d i ≤ targetCount p d (i + 1) :=
        targetCount_mono (by omega)
      have hstep : targetCount p d (i + 1) ≤ targetCount p d i + 1 :=
        targetCount_succ_le hp hd
      have hled : targetCount p d (i + 1) ≤ d := by
        have hm := @targetCount_mono p d (i + 1) p (by omega)
        rw [targetCount_self hp] at hm
        exact hm
      split
      · rename_i hlt
        rw [htgt] at hlt
        have hinv2 : inc + 1 = targetCount p d (i + 1) := by omega
        rw [producedStitches_cons, ih (i + 1) (inc + 1) (by omega) (by omega) hinv2]
        simp [mkInstr, producesOf]
        omega
      · rename_i hge
        rw [htgt] at hge
        have hinv2 : inc = targetCount p d (i + 1) := by omega
        rw [producedStitches_cons, ih (i + 1) inc (by omega) (by omega) hinv2]
        simp [mkInstr, producesOf]
        omega
    · have hieq : i = p := by omega
      subst hieq
      rw [targetCount_self hp] at hinv
      simp [hip, producedStitches_nil, hinv]

lemma decLoop_consumed {p d : ℕ} :
    ∀ fuel i dc, p ≤ fuel + i → i ≤ p →
      consumedStitches (decLoop p d fuel i dc) = p - i := by
  intro fuel
  induction fuel with
  | zero =>
    intro i dc hf hi
    have : i = p := by omega
    simp [decLoop, this, consumedStitches_nil]
  | succ n ih =>
    intro i dc hf hi
    simp only [decLoop]
    by_cases hip : i < p
    · simp only [hip, if_true]
      split
      · rename_i hc
        rw [consumedStitches_cons, ih (i + 2) (dc + 1) (by omega) (by omega)]
        simp [mkInstr, consumesOf]
        omega
      · rw [consumedStitches_cons, ih (i + 1) dc (by omega) (by omega)]
        simp [mkInstr, consumesOf]
        omega
    · have : i = p := by omega
      simp [hip, this, consumedStitches_nil]

lemma decLoop_produced_eq_length {p d : ℕ} :
    ∀ fuel i dc,
      producedStitches (decLoop p d fuel i dc) = (decLoop p d fuel i dc).length := by
  intro fuel
  induction fuel with
  | zero => intro i dc; simp [decLoop, producedStitches_nil]
  | succ n ih =>
    intro i dc
    simp only [decLoop]
    by_cases hip : i < p
    · simp only [hip, if_true]
      split
      · rw [producedStitches_cons, ih (i + 2) (dc + 1)]
        simp [mkInstr, producesOf]
        omega
      · rw [producedStitches_cons, ih (i + 1) dc]
        simp [mkInstr, producesOf]
        omega
    · simp [hip, producedStitches_nil]

lemma decLoop_length_add_count {p d : ℕ} :
    ∀ fuel i dc,
      (decLoop p d fuel i dc).length + countTy .INVDEC (decLoop p d fuel i dc)
        = consumedStitches (decLoop p d fuel i dc) := by
  intro fuel
  induction fuel with
  | zero => intro i dc; simp [decLoop, consumedStitches_nil, countTy_nil]
  | succ n ih =>
    intro i dc
    simp only [decLoop]
    by_cases hip : i < p
    · simp only [hip, if_true]
      split
      · rw [consumedStitches_cons, countTy_cons]
        have := ih (i + 2) (dc + 1)
        simp only [List.length_cons, mkInstr, consumesOf]
        simp
        omega
      · rw [consumedStitches_cons, countTy_cons]
        have := ih (i + 1) dc
        simp only [List.length_cons, mkInstr, consumesOf]
        simp
        omega
    · simp [hip, consumedStitches_nil, countTy_nil]

lemma decLoop_count_invdec {p d : ℕ} (hd : 0 < d) (h2 : 2 * d ≤ p) :
    ∀ fuel i dc, p ≤ fuel + i → i ≤ p → dc = targetCount p d i →
      dc + countTy .INVDEC (decLoop p d fuel i dc) = d := by
  have hp : 0 < p := by omega
  have hdp : d ≤ p := by omega
  intro fuel
  induction fuel with
  | zero =>
    intro i dc hf hi hinv
    have hip : i = p := by omega
    subst hip
    rw [targetCount_self hp] at hinv
    simp [decLoop, countTy_nil, hinv]
  | succ n ih =>
    intro i dc hf hi hinv
    simp only [decLoop]
    by_cases hip : i < p
    · simp only [hip, if_true]
      have htgt : ((i + 1) * d + p - 1) / p = targetCount p d (i + 1) := rfl
      have hmono : targetCount p d i ≤ targetCount p d (i + 1) :=
        targetCount_mono (by omega)
      have hstep : targetCount p d (i + 1) ≤ targetCount p d i + 1 :=
        targetCount_succ_le hp hdp
      split
      · rename_i hc
        rw [htgt] at hc
        obtain ⟨hlt, hi1⟩ := hc
        have hmono2 : targetCount p d (i + 1) ≤ targetCount p d (i + 2) :=
          targetCount_mono (by omega)
        have hstep2 : targetCount p d (i + 2) ≤ targetCount p d i + 1 :=
          targetCount_add_two_le hp h2
        have hinv2 : dc + 1 = targetCount p d (i + 2) := by omega
        rw [countTy_cons]
        have hrec := ih (i + 2) (dc + 1) (by omega) (by omega) hinv2
        simp only [mkInstr]
        simp
        omega
      · rename_i hc
        rw [htgt] at hc
        have hcase : ¬ dc < targetCount p d (i + 1) ∨ ¬ i + 1 < p := by tauto
      -- when the guard blocked a wanted decrease, i + 1 = p and the
      -- invariant already gives dc = d, contradicting dc < target(p) = d
        have hinv2 : dc = targetCount p d (i + 1) := by
          rcases hcase with h | h
          · omega
          · have hieq : i = p - 1 := by omega
            have hpred : targetCount p d (p - 1) = d := targetCount_pred hd (by omega)
            have hself : targetCount p d p = d := targetCount_self hp
            subst hieq
            have : p - 1 + 1 = p := by omega
            rw [this, hself]
            omega
        rw [countTy_cons]
        have hrec := ih (i + 1) dc (by omega) (by omega) hinv2
        simp only [mkInstr]
        simp
        omega
    · have hieq : i = p := by omega
      subst hieq
      rw [targetCount_self hp] at hinv
      simp [hip, countTy_nil, hinv]

lemma consumed_sc_map (p : ℕ) (l : List ℕ) :
    consumedStitches (l.map (fun i => mkInstr .SC i p)) = l.length := by
  induction l with
  | nil => rfl
  | cons a tl ih =>
    rw [List.map_cons, consumedStitches_cons, ih]
    simp [mkInstr, consumesOf]
    omega

lemma produced_sc_map (p : ℕ) (l : List ℕ) :
    producedStitches (l.map (fun i => mkInstr .SC i p)) = l.length := by
  induction l with
  | nil => rfl
  | cons a tl ih =>
    rw [List.map_cons, producedStitches_cons, ih]
    simp [mkInstr, producesOf]
    omega

lemma band_max_le_p {p : ℕ} (hp : 6 ≤ p) : max 6 (p / 6) ≤ p :=
  max_le (by omega) (Nat.div_le_self p 6)

lemma band_two_mul_le {p t d : ℕ} (ht : 6 ≤ t) (hsum : t + d = p)
    (hband : d ≤ max 6 (p / 6)) : 2 * d ≤ p := by
  rcases le_max_iff.mp hband with h | h
  · omega
  · have h1 : p / 6 ≤ p / 2 := Nat.div_le_div_left (by omega) (by omega)
    have h2 : p / 2 * 2 ≤ p := Nat.div_mul_le_self p 2
    omega

/-- Claim C1: for prev, target ≥ 6 with |target − prev| within the
physical band max(6, ⌊prev/6⌋), generate_row_pattern consumes exactly
prev previous-row stitches and produces exactly target stitches. -/
theorem claim_C1 (p t : ℕ) (hp : 6 ≤ p) (ht : 6 ≤ t)
    (hband : ((t : ℤ) - (p : ℤ)).natAbs ≤ max 6 (p / 6)) (r : ℕ) :
    consumedStitches (generate_row_pattern r p t) = p ∧
    producedStitches (generate_row_pattern r p t) = t := by
  have hp0 : 0 < p := by omega
  simp only [generate_row_pattern]
  split_ifs with h0 hpos
  · -- delta = 0
    have hteq : t = p := by omega
    constructor
    · rw [consumed_sc_map, List.length_range]
    · rw [produced_sc_map, List.length_range, hteq]
  · -- delta > 0
    have hptlt : p < t := by omega
    have habs : ((t : ℤ) - (p : ℤ)).natAbs = t - p := by omega
    rw [habs] at hband
    have hdlep : t - p ≤ p := le_trans hband (band_max_le_p hp)
    constructor
    · rw [incLoop_consumed p 0 0 (by omega) (by omega)]
      omega
    · rw [incLoop_produced hp0 hdlep p 0 0 (by omega) (by omega)
        (targetCount_zero hp0).symm]
      omega
  · -- delta < 0
    have htlt : t < p := by omega
    have habs : ((t : ℤ) - (p : ℤ)).natAbs = p - t := by omega
    rw [habs] at hband
    have hd0 : 0 < p - t := by omega
    have h2d : 2 * (p - t) ≤ p := band_two_mul_le ht (by omega) hband
    have hcons := @decLoop_consumed p (p - t) p 0 0 (by omega) (by omega)
    have hcount := decLoop_count_invdec hd0 h2d p 0 0 (by omega) (by omega)
      (targetCount_zero hp0).symm
    have hlen := @decLoop_length_add_count p (p - t) p 0 0
    have hprod := @decLoop_produced_eq_length p (p - t) p 0 0
    constructor
    · rw [hcons]
      omega
    · omega

/-- Witness for claim C1 at prev = 12, target = 18. -/
theorem claim_C1_witness :
    6 ≤ 12 ∧ 6 ≤ 18 ∧ (((18 : ℤ) - (12 : ℤ)).natAbs ≤ max 6 (12 / 6)) ∧
    (consumedStitches (generate_row_pattern 2 12 18) = 12 ∧
     producedStitches (generate_row_pattern 2 12 18) = 18) :=
  ⟨by decide, by decide, by decide,
   claim_C1 12 18 (by decide) (by decide) (by decide) 2⟩

/-- Counterexample to claim C4 as stated: at (prev, target) = (18, 12),
well inside the physical band, the instruction sequence has length 12
(six INVDEC each consuming two stitches plus six SC), not prev = 18. -/
theorem claim_C4_counterexample :
    6 ≤ 18 ∧ 6 ≤ 12 ∧ (((12 : ℤ) - (18 : ℤ)).natAbs ≤ max 6 (18 / 6)) ∧
    (generate_row_pattern 3 18 12).length ≠ 18 := by
  decide

/-- Claim C4 amended: within the physical band the instruction sequence
returned by generate_row_pattern has length min(prev, target): exactly
prev when delta ≥ 0, and exactly target when delta < 0 (each invisible
decrease is a single instruction consuming two previous stitches). -/
theorem claim_C4_amended (p t : ℕ) (hp : 6 ≤ p) (ht : 6 ≤ t)
    (hband : ((t : ℤ) - (p : ℤ)).natAbs ≤ max 6 (p / 6)) (r : ℕ) :
    (generate_row_pattern r p t).length = min p t := by
  have hp0 : 0 < p := by omega
  simp only [generate_row_pattern]
  split_ifs with h0 hpos
  · have hteq : t = p := by omega
    rw [List.length_map, List.length_range]
    omega
  · have hptlt : p < t := by omega
    rw [incLoop_length p 0 0 (by omega) (by omega)]
    omega
  · have htlt : t < p := by omega
    have habs : ((t : ℤ) - (p : ℤ)).natAbs = p - t := by omega
    rw [habs] at hband
    have hd0 : 0 < p - t := by omega
    have h2d : 2 * (p - t) ≤ p := band_two_mul_le ht (by omega) hband
    have hcons := @decLoop_consumed p (p - t) p 0 0 (by omega) (by omega)
    have hcount := decLoop_count_invdec hd0 h2d p 0 0 (by omega) (by omega)
      (targetCount_zero hp0).symm
    have hlen := @decLoop_length_add_count p (p - t) p 0 0
    omega

/-- Witness for the amended claim C4 at prev = 18, target = 12. -/
theorem claim_C4_amended_witness :
    6 ≤ 18 ∧ 6 ≤ 12 ∧ (((12 : ℤ) - (18 : ℤ)).natAbs ≤ max 6 (18 / 6)) ∧
    (generate_row_pattern 3 18 12).length = min 18 12 :=
  ⟨by decide, by decide, by decide,
   claim_C4_amended 18 12 (by decide) (by decide) (by decide) 3⟩

/-- Adjacency bound of the spec: |b − a| ≤ max(6, ⌊a/6⌋). -/
def adjacentBand (a b : ℕ) : Prop :=
  ((b : ℤ) - (a : ℤ)).natAbs ≤ max 6 (a / 6)

lemma max_delta_eq (prev : ℕ) :
    f64ToUsize (fmax ((prev : ℚ) / 6) 6) = max 6 (prev / 6) := by
  unfold fmax f64ToUsize
  split_ifs with h
  · have hlt : prev < 36 := by
      by_contra hge
      push_neg at hge
      have : (36 : ℚ) ≤ (prev : ℚ) := by exact_mod_cast hge
      have : (6 : ℚ) ≤ (prev : ℚ) / 6 := by linarith
      linarith
    have hdiv : prev / 6 ≤ 5 := by omega
    have : ⌊(6 : ℚ)⌋ = 6 := by norm_num
    rw [this]
    omega
  · push_neg at h
    have hge : (36 : ℚ) ≤ (prev : ℚ) := by linarith
    have hge36 : 36 ≤ prev := by exact_mod_cast hge
    have hfloor : ⌊((prev : ℤ) : ℚ) / ((6 : ℕ) : ℚ)⌋ = (prev : ℤ) / ((6 : ℕ) : ℤ) :=
      Rat.floor_intCast_div_natCast (prev : ℤ) 6
    have hcast : ((prev : ℤ) : ℚ) = (prev : ℚ) := by push_cast; ring
    have hcast6 : (((6 : ℕ) : ℤ) : ℚ) = (6 : ℚ) := by norm_num
    rw [hcast] at hfloor
    norm_num at hfloor
    rw [hfloor]
    have hdiv : ((prev : ℤ) / (6 : ℤ)).toNat = prev / 6 := by omega
    rw [hdiv]
    omega

lemma stitchCountsLoop_step_band (g : ℚ) (r : ℚ) (rest : List ℚ) (prev : ℕ)
    (h6 : 6 ≤ prev) :
    ∃ s2 : ℕ, stitchCountsLoop g (r :: rest) prev
        = s2 :: stitchCountsLoop g rest s2 ∧ 6 ≤ s2 ∧ adjacentBand prev s2 := by
  simp only [stitchCountsLoop]
  refine ⟨_, rfl, le_max_right _ _, ?_⟩
  rw [max_delta_eq]
  set s0 := roundToUsize (2 * piF * fmax r (1 / 10) * g) with hs0
  set md := max 6 (prev / 6) with hmd
  have hmd6 : 6 ≤ md := le_max_left _ _
  have hmdp : md ≤ prev := band_max_le_p h6
  unfold adjacentBand
  rw [← hmd]
  split_ifs with h1 h2
  · omega
  · omega
  · omega

lemma stitchCountsLoop_adjacent (g : ℚ) :
    ∀ (rs : List ℚ) (prev : ℕ), 6 ≤ prev → ∀ i : ℕ,
      i + 1 < (prev :: stitchCountsLoop g rs prev).length →
      adjacentBand ((prev :: stitchCountsLoop g rs prev).getD i 0)
        ((prev :: stitchCountsLoop g rs prev).getD (i + 1) 0) := by
  intro rs
  induction rs with
  | nil =>
    intro prev h6 i hi
    simp [stitchCountsLoop] at hi
  | cons r rest ih =>
    intro prev h6 i hi
    obtain ⟨s2, heq, hs6, hband⟩ := stitchCountsLoop_step_band g r rest prev h6
    rw [heq] at hi ⊢
    match i with
    | 0 => simpa using hband
    | j + 1 =>
      have := ih s2 hs6 j (by simpa using hi)
      simpa using this

/-- Claim C2: every pair of adjacent entries of calculate_stitch_counts
satisfies |count(i+1) − count(i)| ≤ max(6, ⌊count(i)/6⌋), including after
the final floor-at-6 adjustment. -/
theorem claim_C2 (radii : List ℚ) (config : AmigurumiConfig)
    (hne : radii ≠ []) (i : ℕ)
    (hi : i + 1 < (calculate_stitch_counts radii config).length) :
    adjacentBand ((calculate_stitch_counts radii config).getD i 0)
      ((calculate_stitch_counts radii config).getD (i + 1) 0) := by
  match radii with
  | [] => exact absurd rfl hne
  | r0 :: rest =>
    simp only [calculate_stitch_counts] at hi ⊢
    exact stitchCountsLoop_adjacent _ rest _ (le_max_right _ _) i hi

/-- Witness for claim C2 on a three-row radius list. -/
theorem claim_C2_witness :
    ([2, 10, 10] : List ℚ) ≠ [] ∧
    0 + 1 < (calculate_stitch_counts [2, 10, 10] ⟨3, ⟨3, 3, 7/2⟩⟩).length ∧
    adjacentBand ((calculate_stitch_counts [2, 10, 10] ⟨3, ⟨3, 3, 7/2⟩⟩).getD 0 0)
      ((calculate_stitch_counts [2, 10, 10] ⟨3, ⟨3, 3, 7/2⟩⟩).getD 1 0) := by
  have hne : ([2, 10, 10] : List ℚ) ≠ [] := by simp
  have hlen : (calculate_stitch_counts [2, 10, 10] ⟨3, ⟨3, 3, 7/2⟩⟩).length = 3 := by
    simp [calculate_stitch_counts, stitchCountsLoop]
  exact ⟨hne, by omega, claim_C2 [2, 10, 10] ⟨3, ⟨3, 3, 7/2⟩⟩ hne 0 (by omega)⟩

/-- Draw modelling `rng.gen_bool(0.5)`: one stream word, low bit. -/
def rngBool (O : Oracles) (pos : ℕ) : Bool × ℕ :=
  (O.rnd pos % 2 == 1, pos + 1)

/-- Draw modelling `rng.gen_range(0..n)`: one stream word reduced mod n. -/
def rngRange (O : Oracles) (n : ℕ) (pos : ℕ) : ℕ × ℕ :=
  (O.rnd pos % n, pos + 1)

/-- Draw modelling `rng.gen_range(lo..=hi)` on i32. -/
def rngRangeI (O : Oracles) (lo hi : ℤ) (pos : ℕ) : ℤ × ℕ :=
  (lo + (O.rnd pos : ℤ) % (hi - lo + 1), pos + 1)

/-- Draw modelling `rng.gen::<f64>()`: a value in [0, 1). -/
def rngFloat (O : Oracles) (pos : ℕ) : ℚ × ℕ :=
  ((O.rnd pos % 2 ^ 53 : ℕ) / (2 ^ 53 : ℚ), pos + 1)

/-- circular_distance (optimization.rs lines 212-215). -/
def circular_distance (a b length : ℕ) : ℕ :=
  let diff := if b < a then a - b else b - a
  min diff (length - diff)

/-- index_energy (optimization.rs lines 172-209): repulsion plus staggering
terms; ln and exp go through the oracle record. -/
def index_energy (O : Oracles) (indices prev_indices : List ℕ)
    (pattern_length : ℕ) : ℚ :=
  let n := indices.length
  if n ≤ 1 then 0
  else
    let repulsion := ((List.range n).map (fun i =>
      (((List.range n).filter (fun j => i < j)).map (fun j =>
        -(O.lnO ((circular_distance (indices.getD i 0) (indices.getD j 0)
            pattern_length : ℚ) + 1)))).sum)).sum
    let stagger :=
      if prev_indices ≠ [] then
        let lam : ℚ := 1
        (indices.map (fun idx =>
          let min_dist := prev_indices.foldl
            (fun m p => min m (circular_distance idx p pattern_length))
            pattern_length
          if min_dist < pattern_length / (n * 2) then
            lam * 10 * O.expO (-(min_dist : ℚ))
          else
            lam * O.expO (-((min_dist : ℚ) / 2)))).sum
      else 0
    repulsion + stagger

/-- Rust `candidate.swap(i, j)` on a vector of usize. -/
def listSwap (l : List ℕ) (i j : ℕ) : List ℕ :=
  (l.set i (l.getD j 0)).set j (l.getD i 0)

/-- Rust `candidate.sort_unstable()`: ascending sort (on ℕ the result is
the unique sorted permutation, so any correct sort models it). -/
def sortNat (l : List ℕ) : List ℕ := l.insertionSort (· ≤ ·)

/-- Rust `Vec::dedup`: remove consecutive repeated elements. -/
def dedupConsec : List ℕ → List ℕ
  | [] => []
  | [a] => [a]
  | a :: b :: t => if a = b then dedupConsec (b :: t) else a :: dedupConsec (b :: t)

/-- State threaded through the annealing iterations of
optimize_special_stitch_indices (optimization.rs lines 120-165). -/
structure AnnealState where
  current : List ℕ
  best : List ℕ
  best_energy : ℚ
  temperature : ℚ
  pos : ℕ

/-- The perturbation of one annealing iteration (optimization.rs lines
129-141): swap two positions, or shift one position by a draw from
[-3, 3] reduced with rem_euclid. -/
def perturb (O : Oracles) (L n : ℕ) (cur : List ℕ) (pos : ℕ) : List ℕ × ℕ :=
  let br := rngBool O pos
  if br.1 ∧ 1 < n then
    let ir := rngRange O n br.2
    let jr := rngRange O n ir.2
    (listSwap cur ir.1 jr.1, jr.2)
  else
    let ir := rngRange O n br.2
    let dr := rngRangeI O (-3) 3 ir.2
    ((cur.set ir.1 (((cur.getD ir.1 0 : ℤ) + dr.1).emod (L : ℤ)).toNat), dr.2)

/-- One iteration of the annealing loop body (optimization.rs lines
128-164): perturb, sort and dedup, skip on collision (`continue` also
skips the temperature update, as in the source), else evaluate energies,
accept or reject, track the best. -/
def annealStep (O : Oracles) (prev_indices : List ℕ) (L n : ℕ)
    (st : AnnealState) : AnnealState :=
  let cp := perturb O L n st.current st.pos
  let candidate := dedupConsec (sortNat cp.1)
  if candidate.length ≠ n then
    { st with pos := cp.2 }
  else
    let current_energy := index_energy O st.current prev_indices L
    let candidate_energy := index_energy O candidate prev_indices L
    let delta_e := candidate_energy - current_energy
    let ar :=
      if delta_e < 0 then (true, cp.2)
      else
        let ur := rngFloat O cp.2
        ((ur.1 < O.expO (-delta_e / st.temperature) : Bool), ur.2)
    if ar.1 then
      if candidate_energy < st.best_energy then
        { current := candidate, best := candidate,
          best_energy := candidate_energy,
          temperature := st.temperature * (19/20), pos := ar.2 }
      else
        { current := candidate, best := st.best,
          best_energy := st.best_energy,
          temperature := st.temperature * (19/20), pos := ar.2 }
    else
      { current := st.current, best := st.best,
        best_energy := st.best_energy,
        temperature := st.temperature * (19/20), pos := ar.2 }

/-- The 500-iteration annealing loop (optimization.rs lines 127-165),
recursing on the remaining iteration count. -/
def annealIter (O : Oracles) (prev_indices : List ℕ) (L n : ℕ) :
    ℕ → AnnealState → AnnealState
  | 0, st => st
  | k + 1, st => annealIter O prev_indices L n k (annealStep O prev_indices L n st)

/-- optimize_special_stitch_indices (optimization.rs lines 96-168),
returning the best index placement and the advanced stream position. -/
def optimize_special_stitch_indices (O : Oracles)
    (special_indices prev_special_indices : List ℕ)
    (pattern_length : ℕ) (pos : ℕ) : List ℕ × ℕ :=
  if special_indices = [] then ([], pos)
  else
    let n := special_indices.length
    let spacing : ℚ := (pattern_length : ℚ) / (n : ℚ)
    let current0 := (List.range n).map
      (fun i : ℕ => roundToUsize ((i : ℚ) * spacing) % pattern_length)
    let current :=
      if prev_special_indices ≠ [] ∧ 0 < n then
        let offset := roundToUsize (spacing / 2)
        current0.map (fun q => (q + offset) % pattern_length)
      else current0
    let best_energy := index_energy O current prev_special_indices pattern_length
    let st := annealIter O prev_special_indices pattern_length n 500
      { current := current, best := current, best_energy := best_energy,
        temperature := 1, pos := pos }
    (st.best, st.pos)

/-- Indices of the non-SC instructions of a pattern, mirroring
`pattern.iter().enumerate().filter(non-SC).map(index)` with a running
index argument. -/
def specialIndicesAux : ℕ → List StitchInstruction → List ℕ
  | _, [] => []
  | i, s :: rest =>
    if s.stitch_type != StitchType.SC then i :: specialIndicesAux (i + 1) rest
    else specialIndicesAux (i + 1) rest

/-- Builds the instruction vector from a vector of stitch types, mirroring
the enumerate-map of optimization.rs lines 72-83. -/
def buildPatternAux (L : ℕ) : ℕ → List StitchType → List StitchInstruction
  | _, [] => []
  | i, ty :: rest => mkInstr ty i L :: buildPatternAux L (i + 1) rest

/-- The `for &pos in &optimized_indices` write loop of optimization.rs
lines 65-69: place each special stitch type at its optimized position. -/
def writeSpecials : List StitchType → List (ℕ × StitchType) → List StitchType
  | base, [] => base
  | base, pt :: rest => writeSpecials (base.set pt.1 pt.2) rest

/-- Default instruction used to model the (never out-of-range) Rust
indexing `row.pattern[special_indices[k]]`. -/
def dfltInstr : StitchInstruction := mkInstr .SC 0 0

/-- Per-row body and row recursion of optimize_stitch_placement
(optimization.rs lines 12-93), threading the previously optimized row
(for staggering) and the stream position. -/
def optLoop (O : Oracles) : List Row → Option Row → ℕ → List Row
  | [], _, _ => []
  | row :: rest, prevOpt, pos =>
    let special_count :=
      (row.pattern.filter (fun s => s.stitch_type != StitchType.SC)).length
    if special_count = 0 then
      row :: optLoop O rest (some row) pos
    else
      let special_indices := specialIndicesAux 0 row.pattern
      let prev_special_indices :=
        match prevOpt with
        | some prev_row => specialIndicesAux 0 prev_row.pattern
        | none => []
      let res := optimize_special_stitch_indices O special_indices
        prev_special_indices row.pattern.length pos
      let specialTypes := special_indices.map
        (fun i => (row.pattern.getD i dfltInstr).stitch_type)
      let new_pattern := writeSpecials
        (List.replicate row.pattern.length StitchType.SC)
        (res.1.zip specialTypes)
      let pattern_vec := buildPatternAux new_pattern.length 0 new_pattern
      let newRow : Row :=
        { row_number := row.row_number, total_stitches := row.total_stitches,
          pattern := pattern_vec }
      newRow :: optLoop O rest (some newRow) res.2

/-- optimize_stitch_placement (optimization.rs lines 12-93).  The ChaCha8
generator seeded with 42 is modelled by the fixed word stream of the
oracle record, read from position 0. -/
def optimize_stitch_placement (O : Oracles) (rows : List Row) : List Row :=
  optLoop O rows none 0

/-- Constant oracle record used to instantiate universally quantified
theorems at a concrete input. -/
def zeroOracles : Oracles :=
  { expO := fun _ => 0, lnO := fun _ => 0, sqrtO := fun _ => 0,
    arcLenO := fun _ _ _ _ => 0, findTO := fun _ _ _ _ _ => 0,
    rnd := fun _ => 0 }

/-- Claim C6: optimize_stitch_placement is deterministic: two runs on
equal input row sequences (with the generator seeded by the same fixed
seed, modelled by the same word stream) return equal row sequences; the
embedding shows the function reads no input beyond the rows and the
seeded stream. -/
theorem claim_C6 (O : Oracles) (rows1 rows2 : List Row) (h : rows1 = rows2) :
    optimize_stitch_placement O rows1 = optimize_stitch_placement O rows2 := by
  rw [h]

/-- Witness for claim C6 on a concrete one-row input. -/
theorem claim_C6_witness :
    [Row.mk 1 6 [mkInstr .SC 0 6]] = [Row.mk 1 6 [mkInstr .SC 0 6]] ∧
    optimize_stitch_placement zeroOracles [Row.mk 1 6 [mkInstr .SC 0 6]]
      = optimize_stitch_placement zeroOracles [Row.mk 1 6 [mkInstr .SC 0 6]] :=
  ⟨rfl, claim_C6 zeroOracles [Row.mk 1 6 [mkInstr .SC 0 6]]
    [Row.mk 1 6 [mkInstr .SC 0 6]] rfl⟩

/-- Invariant maintained for the index lists handled by the annealer:
exactly n pairwise-distinct positions, all below the pattern length. -/
def IndexInv (n L : ℕ) (l : List ℕ) : Prop :=
  l.length = n ∧ l.Nodup ∧ ∀ x ∈ l, x < L

lemma mem_dedupConsec : ∀ (l : List ℕ) (x : ℕ), x ∈ dedupConsec l → x ∈ l := by
  intro l
  induction l with
  | nil => simp [dedupConsec]
  | cons a t ih =>
    cases t with
    | nil => simp [dedupConsec]
    | cons b t2 =>
      intro x hx
      simp only [dedupConsec] at hx
      split_ifs at hx with hab
      · exact List.mem_cons_of_mem a (ih x hx)
      · rcases List.mem_cons.mp hx with h | h
        · exact h ▸ List.mem_cons_self a _
        · exact List.mem_cons_of_mem a (ih x h)

lemma dedupConsec_sorted_nodup :
    ∀ l : List ℕ, l.Sorted (· ≤ ·) → (dedupConsec l).Nodup := by
  intro l
  induction l with
  | nil => simp [dedupConsec]
  | cons a t ih =>
    cases t with
    | nil => simp [dedupConsec]
    | cons b t2 =>
      intro hs
      have hs2 : (b :: t2).Sorted (· ≤ ·) := (List.sorted_cons.mp hs).2
      have hab : a ≤ b := (List.sorted_cons.mp hs).1 b (List.mem_cons_self b t2)
      simp only [dedupConsec]
      split_ifs with heq
      · exact ih hs2
      · refine List.nodup_cons.mpr ⟨?_, ih hs2⟩
        intro hmem
        have hin : a ∈ b :: t2 := mem_dedupConsec _ a hmem
        rcases List.mem_cons.mp hin with h | h
        · exact heq h
        · have hba : b ≤ a := (List.sorted_cons.mp hs2).1 a h
          exact heq (le_antisymm hab hba)

lemma mem_sortNat {x : ℕ} {l : List ℕ} (h : x ∈ sortNat l) : x ∈ l :=
  (List.perm_insertionSort (· ≤ ·) l).mem_iff.mp h

lemma sortNat_sorted (l : List ℕ) : (sortNat l).Sorted (· ≤ ·) :=
  List.sorted_insertionSort (· ≤ ·) l

lemma postprocess_inv {n L : ℕ} (c : List ℕ) (hb : ∀ x ∈ c, x < L)
    (hlen : (dedupConsec (sortNat c)).length = n) :
    IndexInv n L (dedupConsec (sortNat c)) := by
  refine ⟨hlen, dedupConsec_sorted_nodup _ (sortNat_sorted c), ?_⟩
  intro x hx
  exact hb x (mem_sortNat (mem_dedupConsec _ x hx))

lemma getD_lt_of_forall {l : List ℕ} {L k : ℕ} (hL : 0 < L)
    (hb : ∀ x ∈ l, x < L) : l.getD k 0 < L := by
  by_cases hk : k < l.length
  · rw [List.getD_eq_getElem l 0 hk]
    exact hb _ (List.getElem_mem hk)
  · rw [List.getD_eq_default l 0 (by omega)]
    exact hL

lemma listSwap_bounds {l : List ℕ} {L i j : ℕ} (hL : 0 < L)
    (hb : ∀ x ∈ l, x < L) : ∀ x ∈ listSwap l i j, x < L := by
  intro x hx
  unfold listSwap at hx
  rcases List.mem_or_eq_of_mem_set hx with hx2 | hx2
  · rcases List.mem_or_eq_of_mem_set hx2 with hx3 | hx3
    · exact hb x hx3
    · exact hx3 ▸ getD_lt_of_forall hL hb
  · exact hx2 ▸ getD_lt_of_forall hL hb

lemma shift_bounds {l : List ℕ} {L i : ℕ} {v : ℤ} (hL : 0 < L)
    (hb : ∀ x ∈ l, x < L) :
    ∀ x ∈ l.set i (v.emod (L : ℤ)).toNat, x < L := by
  intro x hx
  rcases List.mem_or_eq_of_mem_set hx with hx2 | hx2
  · exact hb x hx2
  · have hLz : (L : ℤ) ≠ 0 := by exact_mod_cast Nat.pos_iff_ne_zero.mp hL
    have h1 : 0 ≤ v.emod (L : ℤ) := Int.emod_nonneg v hLz
    have h2 : v.emod (L : ℤ) < (L : ℤ) :=
      Int.emod_lt_of_pos v (by exact_mod_cast hL)
    omega

lemma perturb_bounds {O : Oracles} {L n : ℕ} {cur : List ℕ} {pos : ℕ}
    (hL : 0 < L) (hb : ∀ x ∈ cur, x < L) :
    ∀ x ∈ (perturb O L n cur pos).1, x < L := by
  simp only [perturb]
  split_ifs
  · exact listSwap_bounds hL hb
  · exact shift_bounds hL hb

lemma annealStep_inv {O : Oracles} {prev : List ℕ} {L n : ℕ} (hL : 0 < L)
    (st : AnnealState) (hc : IndexInv n L st.current) (hb : IndexInv n L st.best) :
    IndexInv n L (annealStep O prev L n st).current ∧
    IndexInv n L (annealStep O prev L n st).best := by
  have hpb : ∀ x ∈ (perturb O L n st.current st.pos).1, x < L :=
    perturb_bounds hL hc.2.2
  unfold annealStep
  generalize hcp : perturb O L n st.current st.pos = cp at hpb
  by_cases hlen : (dedupConsec (sortNat cp.1)).length = n
  · have hcand : IndexInv n L (dedupConsec (sortNat cp.1)) :=
      postprocess_inv cp.1 hpb hlen
    rw [if_neg (by omega : ¬ (dedupConsec (sortNat cp.1)).length ≠ n)]
    dsimp only
    split_ifs <;>
      first
      | exact ⟨hcand, hcand⟩
      | exact ⟨hcand, hb⟩
      | exact ⟨hc, hb⟩
  · rw [if_pos (by omega : (dedupConsec (sortNat cp.1)).length ≠ n)]
    exact ⟨hc, hb⟩

lemma annealIter_inv {O : Oracles} {prev : List ℕ} {L n : ℕ} (hL : 0 < L) :
    ∀ (k : ℕ) (st : AnnealState), IndexInv n L st.current → IndexInv n L st.best →
      IndexInv n L (annealIter O prev L n k st).current ∧
      IndexInv n L (annealIter O prev L n k st).best := by
  intro k
  induction k with
  | zero => intro st hc hb; exact ⟨hc, hb⟩
  | succ m ih =>
    intro st hc hb
    have hstep := @annealStep_inv O prev L n hL st hc hb
    exact ih _ hstep.1 hstep.2

/-- Number of occurrences of a stitch type in a type vector. -/
def countT (ty : StitchType) (l : List StitchType) : ℕ :=
  (l.filter (fun t => t == ty)).length

lemma countT_nil (ty : StitchType) : countT ty [] = 0 := rfl

lemma countT_cons (ty v : StitchType) (l : List StitchType) :
    countT ty (v :: l) = (if v = ty then 1 else 0) + countT ty l := by
  simp only [countT, List.filter_cons, beq_iff_eq]
  split
  · simp [Nat.add_comm]
  · simp

lemma countT_replicate (ty : StitchType) (L : ℕ) :
    countT ty (List.replicate L StitchType.SC)
      = if ty = StitchType.SC then L else 0 := by
  induction L with
  | zero => simp [countT_nil]
  | succ m ih =>
    rw [List.replicate_succ, countT_cons, ih]
    by_cases h : ty = StitchType.SC
    · subst h; simp; omega
    · rw [if_neg h, if_neg h, if_neg (fun hh => h hh.symm)]

lemma buildPatternAux_length (L : ℕ) :
    ∀ (i : ℕ) (l : List StitchType), (buildPatternAux L i l).length = l.length := by
  intro i l
  induction l generalizing i with
  | nil => rfl
  | cons ty rest ih => simp [buildPatternAux, ih]

lemma buildPatternAux_count (L : ℕ) (ty : StitchType) :
    ∀ (i : ℕ) (l : List StitchType),
      countTy ty (buildPatternAux L i l) = countT ty l := by
  intro i l
  induction l generalizing i with
  | nil => rfl
  | cons v rest ih =>
    rw [buildPatternAux, countTy_cons, countT_cons, ih]
    simp [mkInstr]

lemma writeSpecials_length :
    ∀ (pairs : List (ℕ × StitchType)) (base : List StitchType),
      (writeSpecials base pairs).length = base.length := by
  intro pairs
  induction pairs with
  | nil => intro base; rfl
  | cons pt rest ih =>
    intro base
    rw [writeSpecials, ih, List.length_set]

lemma countT_set (ty v : StitchType) :
    ∀ (l : List StitchType) (k : ℕ), k < l.length →
      countT ty (l.set k v) + (if l.getD k StitchType.SC = ty then 1 else 0)
        = countT ty l + (if v = ty then 1 else 0) := by
  intro l
  induction l with
  | nil => intro k hk; simp at hk
  | cons a t ih =>
    intro k hk
    match k with
    | 0 =>
      simp only [List.set_cons_zero, List.getD_cons_zero, countT_cons]
      omega
    | m + 1 =>
      simp only [List.set_cons_succ, List.getD_cons_succ, countT_cons]
      have := ih m (by simpa using hk)
      omega

lemma getD_set_ne_ty (l : List StitchType) (k m : ℕ) (v : StitchType)
    (hne : k ≠ m) :
    (l.set k v).getD m StitchType.SC = l.getD m StitchType.SC := by
  rw [List.getD_eq_getElem?_getD, List.getD_eq_getElem?_getD,
    List.getElem?_set_ne hne]

lemma writeSpecials_counts :
    ∀ (pairs : List (ℕ × StitchType)) (base : List StitchType),
      (pairs.map Prod.fst).Nodup →
      (∀ q ∈ pairs, q.1 < base.length ∧ base.getD q.1 StitchType.SC = StitchType.SC) →
      ∀ ty, countT ty (writeSpecials base pairs)
          + (if ty = StitchType.SC then pairs.length else 0)
        = countT ty base + countT ty (pairs.map Prod.snd) := by
  intro pairs
  induction pairs with
  | nil => intro base hnd hq ty; simp [writeSpecials, countT_nil]
  | cons pt rest ih =>
    intro base hnd hq ty
    have hhead := hq pt (List.mem_cons_self pt rest)
    have hnd2 : (rest.map Prod.fst).Nodup := (List.nodup_cons.mp hnd).2
    have hnotin : pt.1 ∉ rest.map Prod.fst := (List.nodup_cons.mp hnd).1
    have hq2 : ∀ q ∈ rest, q.1 < (base.set pt.1 pt.2).length ∧
        (base.set pt.1 pt.2).getD q.1 StitchType.SC = StitchType.SC := by
      intro q hqm
      have hql := hq q (List.mem_cons_of_mem pt hqm)
      have hneq : pt.1 ≠ q.1 := by
        intro he
        exact hnotin (he ▸ List.mem_map_of_mem Prod.fst hqm)
      rw [List.length_set, getD_set_ne_ty base pt.1 q.1 pt.2 hneq]
      exact hql
    have hih := ih (base.set pt.1 pt.2) hnd2 hq2 ty
    have hset := countT_set ty pt.2 base pt.1 hhead.1
    rw [writeSpecials]
    rw [List.map_cons, countT_cons, List.length_cons]
    rw [hhead.2] at hset
    by_cases hC : ty = StitchType.SC
    · rw [if_pos hC] at hih ⊢
      rw [if_pos hC.symm] at hset
      by_cases hB : pt.2 = ty
      · rw [if_pos hB] at hset ⊢
        omega
      · rw [if_neg hB] at hset ⊢
        omega
    · rw [if_neg hC] at hih ⊢
      rw [if_neg (fun h => hC h.symm)] at hset
      by_cases hB : pt.2 = ty
      · rw [if_pos hB] at hset ⊢
        omega
      · rw [if_neg hB] at hset ⊢
        omega

lemma specialIndicesAux_length :
    ∀ (l : List StitchInstruction) (i : ℕ),
      (specialIndicesAux i l).length
        = (l.filter (fun s => s.stitch_type != StitchType.SC)).length := by
  intro l
  induction l with
  | nil => intro i; rfl
  | cons s rest ih =>
    intro i
    rw [specialIndicesAux, List.filter_cons]
    by_cases h : s.stitch_type = StitchType.SC
    · have h2 : (s.stitch_type != StitchType.SC) = false := by
        simp [bne_iff_ne, h]
      rw [h2]
      simp only [Bool.false_eq_true, if_false]
      exact ih (i + 1)
    · have h2 : (s.stitch_type != StitchType.SC) = true := by
        simp [bne_iff_ne, h]
      rw [h2]
      simp only [if_true, List.length_cons]
      rw [ih (i + 1)]

lemma specialIndicesAux_bounds :
    ∀ (l : List StitchInstruction) (i : ℕ) (x : ℕ),
      x ∈ specialIndicesAux i l → x < i + l.length := by
  intro l
  induction l with
  | nil => intro i x hx; simp [specialIndicesAux] at hx
  | cons s rest ih =>
    intro i x hx
    rw [specialIndicesAux] at hx
    split_ifs at hx with h
    · rcases List.mem_cons.mp hx with h2 | h2
      · simp [h2]
      · have := ih (i + 1) x h2
        simp only [List.length_cons]
        omega
    · have := ih (i + 1) x hx
      simp only [List.length_cons]
      omega

lemma specialIndicesAux_map_getD :
    ∀ (l : List StitchInstruction) (i : ℕ) (full : List StitchInstruction),
      full.drop i = l →
      (specialIndicesAux i l).map (fun idx => (full.getD idx dfltInstr).stitch_type)
        = (l.filter (fun s => s.stitch_type != StitchType.SC)).map
            (fun s => s.stitch_type) := by
  intro l
  induction l with
  | nil => intro i full hdrop; rfl
  | cons s rest ih =>
    intro i full hdrop
    have hgetD : full.getD i dfltInstr = s := by
      have h0 : (full.drop i)[0]? = full[i]? := by
        have := List.getElem?_drop full i 0
        rw [Nat.add_zero] at this
        exact this
      rw [hdrop] at h0
      simp only [List.getElem?_cons_zero] at h0
      rw [List.getD_eq_getElem?_getD, ← h0]
      rfl
    have hdrop2 : full.drop (i + 1) = rest := by
      have hcong : (full.drop i).drop 1 = (s :: rest).drop 1 := by rw [hdrop]
      rw [List.drop_drop 1 i full] at hcong
      simpa [Nat.add_comm] using hcong
    rw [specialIndicesAux, List.filter_cons]
    by_cases h : s.stitch_type = StitchType.SC
    · have h2 : (s.stitch_type != StitchType.SC) = false := by
        simp [bne_iff_ne, h]
      rw [h2]
      simp only [Bool.false_eq_true, if_false]
      exact ih (i + 1) full hdrop2
    · have h2 : (s.stitch_type != StitchType.SC) = true := by
        simp [bne_iff_ne, h]
      rw [h2]
      simp only [if_true, List.map_cons]
      rw [hgetD, ih (i + 1) full hdrop2]

lemma getD_replicate_self (v : StitchType) :
    ∀ (L k : ℕ), (List.replicate L v).getD k v = v := by
  intro L
  induction L with
  | zero => intro k; simp [List.getD]
  | succ m ih =>
    intro k
    rw [List.replicate_succ]
    match k with
    | 0 => rfl
    | j + 1 => simpa using ih j

lemma countT_special_types (l : List StitchInstruction) (ty : StitchType)
    (hty : ty ≠ StitchType.SC) :
    countT ty ((l.filter (fun s => s.stitch_type != StitchType.SC)).map
        (fun s => s.stitch_type))
      = countTy ty l := by
  induction l with
  | nil => rfl
  | cons s rest ih =>
    rw [List.filter_cons, countTy_cons]
    by_cases h : s.stitch_type = StitchType.SC
    · have h2 : (s.stitch_type != StitchType.SC) = false := by
        simp [bne_iff_ne, h]
      rw [h2]
      simp only [Bool.false_eq_true, if_false, ih]
      rw [if_neg (fun he => hty (he.symm.trans h))]
      omega
    · have h2 : (s.stitch_type != StitchType.SC) = true := by
        simp [bne_iff_ne, h]
      rw [h2]
      simp only [if_true, List.map_cons, countT_cons, ih]

lemma countT_special_types_sc (l : List StitchInstruction) :
    countT StitchType.SC ((l.filter (fun s => s.stitch_type != StitchType.SC)).map
        (fun s => s.stitch_type)) = 0 := by
  induction l with
  | nil => rfl
  | cons s rest ih =>
    rw [List.filter_cons]
    by_cases h : s.stitch_type = StitchType.SC
    · have h2 : (s.stitch_type != StitchType.SC) = false := by
        simp [bne_iff_ne, h]
      rw [h2]
      simpa using ih
    · have h2 : (s.stitch_type != StitchType.SC) = true := by
        simp [bne_iff_ne, h]
      rw [h2]
      simp only [if_true, List.map_cons, countT_cons, ih]
      rw [if_neg h]

lemma countTy_sc_add_special (l : List StitchInstruction) :
    countTy StitchType.SC l
        + (l.filter (fun s => s.stitch_type != StitchType.SC)).length
      = l.length := by
  induction l with
  | nil => rfl
  | cons s rest ih =>
    rw [List.filter_cons, countTy_cons, List.length_cons]
    by_cases h : s.stitch_type = StitchType.SC
    · have h2 : (s.stitch_type != StitchType.SC) = false := by
        simp [bne_iff_ne, h]
      rw [h2]
      simp only [Bool.false_eq_true, if_false]
      rw [if_pos h]
      omega
    · have h2 : (s.stitch_type != StitchType.SC) = true := by
        simp [bne_iff_ne, h]
      rw [h2]
      simp only [if_true, List.length_cons]
      rw [if_neg h]
      omega

lemma roundToUsize_strict (a b : ℚ) (ha : 0 ≤ a) (hab : a + 1 ≤ b) :
    roundToUsize a < roundToUsize b := by
  have hb : 0 ≤ b := by linarith
  unfold roundToUsize roundF
  rw [if_pos ha, if_pos hb]
  have h1 : ⌊a + 1/2⌋ + 1 ≤ ⌊b + 1/2⌋ := by
    have : ⌊a + 1/2 + 1⌋ ≤ ⌊b + 1/2⌋ := Int.floor_le_floor (by linarith)
    rw [Int.floor_add_one] at this
    exact this
  have h2 : (0 : ℤ) ≤ ⌊a + 1/2⌋ := Int.floor_nonneg.mpr (by linarith)
  omega

lemma roundToUsize_lt_bound (q : ℚ) (L : ℕ) (h0 : 0 ≤ q)
    (h : q + 1/2 < (L : ℚ)) : roundToUsize q < L := by
  unfold roundToUsize roundF
  rw [if_pos h0]
  have h1 : ⌊q + 1/2⌋ < (L : ℤ) := Int.floor_lt.mpr (by push_cast; linarith)
  have hLq : (0 : ℚ) < (L : ℚ) := by linarith
  have hL : 0 < L := by exact_mod_cast hLq
  omega

lemma initial_indices_inv (L n : ℕ) (hn : 0 < n) (hnL : n ≤ L) :
    IndexInv n L ((List.range n).map
      (fun i : ℕ => roundToUsize ((i : ℚ) * ((L : ℚ) / (n : ℚ))) % L)) := by
  have hL : 0 < L := lt_of_lt_of_le hn hnL
  have hnQ : (0 : ℚ) < (n : ℚ) := by exact_mod_cast hn
  have hsp1 : (1 : ℚ) ≤ (L : ℚ) / (n : ℚ) := by
    rw [le_div_iff hnQ, one_mul]
    exact_mod_cast hnL
  have hsp0 : (0 : ℚ) ≤ (L : ℚ) / (n : ℚ) := by positivity
  have hval : ∀ i : ℕ, i < n →
      roundToUsize ((i : ℚ) * ((L : ℚ) / (n : ℚ))) < L := by
    intro i hi
    apply roundToUsize_lt_bound _ _ (by positivity)
    have hiq : (i : ℚ) ≤ (n : ℚ) - 1 := by
      have h3 : (i : ℚ) + 1 ≤ (n : ℚ) := by exact_mod_cast hi
      linarith
    have h1 : (i : ℚ) * ((L : ℚ) / (n : ℚ))
        ≤ ((n : ℚ) - 1) * ((L : ℚ) / (n : ℚ)) :=
      mul_le_mul_of_nonneg_right hiq hsp0
    have h2 : ((n : ℚ) - 1) * ((L : ℚ) / (n : ℚ))
        = (L : ℚ) - (L : ℚ) / (n : ℚ) := by
      field_simp
      ring
    linarith
  have hmono : ∀ i j : ℕ, i < j → j < n →
      roundToUsize ((i : ℚ) * ((L : ℚ) / (n : ℚ)))
        < roundToUsize ((j : ℚ) * ((L : ℚ) / (n : ℚ))) := by
    intro i j hij hj
    apply roundToUsize_strict _ _ (by positivity)
    have hiq : (i : ℚ) + 1 ≤ (j : ℚ) := by exact_mod_cast hij
    have h1 : ((i : ℚ) + 1) * ((L : ℚ) / (n : ℚ))
        ≤ (j : ℚ) * ((L : ℚ) / (n : ℚ)) :=
      mul_le_mul_of_nonneg_right hiq hsp0
    nlinarith
  refine ⟨by simp, ?_, ?_⟩
  · apply List.Nodup.map_on _ (List.nodup_range n)
    intro i hi j hj hfeq
    rw [List.mem_range] at hi hj
    rw [Nat.mod_eq_of_lt (hval i hi), Nat.mod_eq_of_lt (hval j hj)] at hfeq
    rcases Nat.lt_trichotomy i j with h | h | h
    · exact absurd hfeq (Nat.ne_of_lt (hmono i j h hj))
    · exact h
    · exact absurd hfeq.symm (Nat.ne_of_lt (hmono j i h hi))
  · intro x hx
    rw [List.mem_map] at hx
    obtain ⟨i, hi, hxeq⟩ := hx
    rw [← hxeq]
    exact Nat.mod_lt _ hL

lemma offset_indices_inv {L n : ℕ} (hL : 0 < L) (off : ℕ) (l : List ℕ)
    (h : IndexInv n L l) : IndexInv n L (l.map (fun q => (q + off) % L)) := by
  obtain ⟨hlen, hnd, hb⟩ := h
  refine ⟨by simpa using hlen, ?_, ?_⟩
  · apply List.Nodup.map_on _ hnd
    intro a ha b hbm hfeq
    have haL : a < L := hb a ha
    have hbL : b < L := hb b hbm
    have hmod : a ≡ b [MOD L] :=
      Nat.ModEq.add_right_cancel (Nat.ModEq.refl off) hfeq
    unfold Nat.ModEq at hmod
    rw [Nat.mod_eq_of_lt haL, Nat.mod_eq_of_lt hbL] at hmod
    exact hmod
  · intro x hx
    rw [List.mem_map] at hx
    obtain ⟨i, hi, hxeq⟩ := hx
    rw [← hxeq]
    exact Nat.mod_lt _ hL

lemma optimize_indices_inv (O : Oracles) (special prev : List ℕ)
    (L pos : ℕ) (hne : special ≠ []) (hnL : special.length ≤ L) :
    IndexInv special.length L
      (optimize_special_stitch_indices O special prev L pos).1 := by
  have hn : 0 < special.length := List.length_pos.mpr hne
  have hL : 0 < L := lt_of_lt_of_le hn hnL
  unfold optimize_special_stitch_indices
  rw [if_neg hne]
  dsimp only
  have hcur : IndexInv special.length L
      (if prev ≠ [] ∧ 0 < special.length then
        (List.range special.length).map
          (fun i : ℕ => roundToUsize ((i : ℚ) * ((L : ℚ) / (special.length : ℚ))) % L)
          |>.map (fun q => (q + roundToUsize (((L : ℚ) / (special.length : ℚ)) / 2)) % L)
      else
        (List.range special.length).map
          (fun i : ℕ => roundToUsize ((i : ℚ) * ((L : ℚ) / (special.length : ℚ))) % L)) := by
    split_ifs
    · exact offset_indices_inv hL _ _ (initial_indices_inv L special.length hn hnL)
    · exact initial_indices_inv L special.length hn hnL
  exact (annealIter_inv hL 500 _ hcur hcur).2

/-- Frame relation of claim C10: the optimized row keeps the row number,
the stitch total, the pattern length and the per-kind stitch counts of
the original row. -/
def RowMatch (orig opt : Row) : Prop :=
  opt.row_number = orig.row_number ∧
  opt.total_stitches = orig.total_stitches ∧
  opt.pattern.length = orig.pattern.length ∧
  ∀ ty, countTy ty opt.pattern = countTy ty orig.pattern

lemma RowMatch_refl (r : Row) : RowMatch r r :=
  ⟨rfl, rfl, rfl, fun _ => rfl⟩

/-- Default row for getD-based indexing in theorem statements. -/
def dfltRow : Row := { row_number := 0, total_stitches := 0, pattern := [] }

lemma optimized_pattern_facts (O : Oracles) (l : List StitchInstruction)
    (prevIdx : List ℕ) (pos : ℕ)
    (hne : (l.filter (fun s => s.stitch_type != StitchType.SC)).length ≠ 0) :
    (buildPatternAux
        (writeSpecials (List.replicate l.length StitchType.SC)
          ((optimize_special_stitch_indices O (specialIndicesAux 0 l) prevIdx
              l.length pos).1.zip
            ((specialIndicesAux 0 l).map
              (fun i => (l.getD i dfltInstr).stitch_type)))).length 0
        (writeSpecials (List.replicate l.length StitchType.SC)
          ((optimize_special_stitch_indices O (specialIndicesAux 0 l) prevIdx
              l.length pos).1.zip
            ((specialIndicesAux 0 l).map
              (fun i => (l.getD i dfltInstr).stitch_type))))).length = l.length ∧
    ∀ ty, countTy ty
        (buildPatternAux
          (writeSpecials (List.replicate l.length StitchType.SC)
            ((optimize_special_stitch_indices O (specialIndicesAux 0 l) prevIdx
                l.length pos).1.zip
              ((specialIndicesAux 0 l).map
                (fun i => (l.getD i dfltInstr).stitch_type)))).length 0
          (writeSpecials (List.replicate l.length StitchType.SC)
            ((optimize_special_stitch_indices O (specialIndicesAux 0 l) prevIdx
                l.length pos).1.zip
              ((specialIndicesAux 0 l).map
                (fun i => (l.getD i dfltInstr).stitch_type)))))
      = countTy ty l := by
  set si := specialIndicesAux 0 l with hsi
  set n := si.length with hn
  have hlen_si : n = (l.filter (fun s => s.stitch_type != StitchType.SC)).length :=
    specialIndicesAux_length l 0
  have hne2 : si ≠ [] := by
    intro h
    rw [h] at hn
    simp at hn
    exact hne (hn ▸ hlen_si ▸ rfl)
  have hnL : si.length ≤ l.length := by
    rw [← hn, hlen_si]
    exact List.length_filter_le _ l
  have hinv := optimize_indices_inv O si prevIdx l.length pos hne2 hnL
  set opt := (optimize_special_stitch_indices O si prevIdx l.length pos).1
    with hopt
  set st := si.map (fun i => (l.getD i dfltInstr).stitch_type) with hst
  have hst_eq : st = (l.filter (fun s => s.stitch_type != StitchType.SC)).map
      (fun s => s.stitch_type) :=
    specialIndicesAux_map_getD l 0 l (List.drop_zero l)
  have hst_len : st.length = n := by rw [hst, List.length_map]
  have hopt_len : opt.length = n := hinv.1
  have hfst : (opt.zip st).map Prod.fst = opt :=
    List.map_fst_zip opt st (by omega)
  have hsnd : (opt.zip st).map Prod.snd = st :=
    List.map_snd_zip opt st (by omega)
  have hlen_pairs : (opt.zip st).length = n := by
    rw [List.length_zip]
    omega
  have hnd : ((opt.zip st).map Prod.fst).Nodup := by
    rw [hfst]
    exact hinv.2.1
  have hq : ∀ q ∈ opt.zip st,
      q.1 < (List.replicate l.length StitchType.SC).length ∧
      (List.replicate l.length StitchType.SC).getD q.1 StitchType.SC
        = StitchType.SC := by
    intro q hqm
    constructor
    · rw [List.length_replicate]
      exact hinv.2.2 q.1 (List.of_mem_zip hqm).1
    · exact getD_replicate_self StitchType.SC l.length q.1
  have hcounts := writeSpecials_counts (opt.zip st)
    (List.replicate l.length StitchType.SC) hnd hq
  have hwlen : (writeSpecials (List.replicate l.length StitchType.SC)
      (opt.zip st)).length = l.length := by
    rw [writeSpecials_length, List.length_replicate]
  constructor
  · rw [buildPatternAux_length, hwlen]
  · intro ty
    rw [buildPatternAux_count]
    have hc := hcounts ty
    rw [hsnd, countT_replicate, hlen_pairs] at hc
    by_cases hty : ty = StitchType.SC
    · subst hty
      rw [if_pos rfl, if_pos rfl] at hc
      have hsc0 : countT StitchType.SC st = 0 := by
        rw [hst_eq]
        exact countT_special_types_sc l
      have hadd := countTy_sc_add_special l
      rw [hsc0] at hc
      omega
    · rw [if_neg hty, if_neg hty] at hc
      have hcty : countT ty st = countTy ty l := by
        rw [hst_eq]
        exact countT_special_types l ty hty
      omega

lemma optLoop_frame (O : Oracles) :
    ∀ (rows : List Row) (prevOpt : Option Row) (pos : ℕ),
      (optLoop O rows prevOpt pos).length = rows.length ∧
      ∀ k, k < rows.length →
        RowMatch (rows.getD k dfltRow) ((optLoop O rows prevOpt pos).getD k dfltRow) := by
  intro rows
  induction rows with
  | nil =>
    intro prevOpt pos
    exact ⟨rfl, fun k hk => absurd hk (by simp)⟩
  | cons row rest ih =>
    intro prevOpt pos
    simp only [optLoop]
    by_cases hsc :
        (row.pattern.filter (fun s => s.stitch_type != StitchType.SC)).length = 0
    · rw [if_pos hsc]
      refine ⟨by simp [(ih (some row) pos).1], ?_⟩
      intro k hk
      match k with
      | 0 => exact RowMatch_refl row
      | j + 1 =>
        simp only [List.getD_cons_succ]
        exact (ih (some row) pos).2 j (by simpa using hk)
    · rw [if_neg hsc]
      have hfacts := optimized_pattern_facts O row.pattern
        (match prevOpt with
          | some prev_row => specialIndicesAux 0 prev_row.pattern
          | none => []) pos hsc
      refine ⟨by simp [(ih _ _).1], ?_⟩
      intro k hk
      match k with
      | 0 =>
        simp only [List.getD_cons_zero]
        exact ⟨rfl, rfl, hfacts.1, hfacts.2⟩
      | j + 1 =>
        simp only [List.getD_cons_succ]
        exact (ih _ _).2 j (by simpa using hk)

/-- Claim C10: optimize_stitch_placement is a frame transformation: it
returns as many rows as it is given, and every output row keeps the row
number, total stitch count, pattern length and exact per-kind stitch
counts (SC, INC, DEC, INVDEC) of the corresponding input row, so the
consumption and production totals of every row are unchanged. -/
theorem claim_C10 (O : Oracles) (rows : List Row) :
    (optimize_stitch_placement O rows).length = rows.length ∧
    ∀ k, k < rows.length →
      RowMatch (rows.getD k dfltRow)
        ((optimize_stitch_placement O rows).getD k dfltRow) :=
  optLoop_frame O rows none 0

/-- Witness for claim C10 on a one-row input containing an increase. -/
theorem claim_C10_witness :
    0 < 1 ∧
    RowMatch ([Row.mk 2 7 [mkInstr .INC 0 6, mkInstr .SC 1 6]].getD 0 dfltRow)
      ((optimize_stitch_placement zeroOracles
          [Row.mk 2 7 [mkInstr .INC 0 6, mkInstr .SC 1 6]]).getD 0 dfltRow) :=
  ⟨Nat.zero_lt_one,
   (claim_C10 zeroOracles [Row.mk 2 7 [mkInstr .INC 0 6, mkInstr .SC 1 6]]).2
     0 Nat.zero_lt_one⟩

/-- Mesh vertex (mesh/types.rs); f32 components modelled as ℚ. -/
structure Vertex where
  position : ℚ × ℚ × ℚ
  normal : ℚ × ℚ × ℚ
  uv : ℚ × ℚ
  curvature : Option ℚ
deriving DecidableEq, Repr

/-- Triangle face (mesh/types.rs): the [u32; 3] index array. -/
structure Face where
  i0 : ℕ
  i1 : ℕ
  i2 : ℕ
deriving DecidableEq, Repr

/-- Axis-aligned bounding box (mesh/types.rs). -/
structure BoundingBox where
  bmin : ℚ × ℚ × ℚ
  bmax : ℚ × ℚ × ℚ
deriving DecidableEq, Repr

/-- Mesh data (mesh/types.rs). -/
structure MeshData where
  vertices : List Vertex
  faces : List Face
  bounds : BoundingBox
deriving DecidableEq, Repr

/-- HashMap lookup of bindings.rs, modelled on an association list. -/
def lookupV (m : List (ℕ × ℕ)) (k : ℕ) : Option ℕ :=
  (m.find? (fun q => q.1 == k)).map Prod.snd

/-- One `if !vertex_map.contains_key(&v_idx)` body of apply_topological_cut
(bindings.rs lines 231-237): duplicate the vertex and record the new
index; out-of-range indexing (a Rust panic) yields none. -/
def addVertex (mesh : MeshData) (verts : List Vertex) (vmap : List (ℕ × ℕ))
    (v_idx : ℕ) : Option (List Vertex × List (ℕ × ℕ)) :=
  if (lookupV vmap v_idx).isSome then some (verts, vmap)
  else
    match mesh.vertices.get? v_idx with
    | none => none
    | some v => some (verts ++ [v], vmap ++ [(v_idx, verts.length)])

/-- Face-index rewrite of apply_topological_cut (bindings.rs lines
240-246): replace every occurrence of v0 by its duplicate index. -/
def remapFace (v0 nidx : ℕ) (f : Face) : Face :=
  { i0 := if f.i0 = v0 then nidx else f.i0,
    i1 := if f.i1 = v0 then nidx else f.i1,
    i2 := if f.i2 = v0 then nidx else f.i2 }

/-- The `for &(v0, v1) in seam` loop of apply_topological_cut
(bindings.rs lines 230-247). -/
def cutLoop (mesh : MeshData) :
    List (ℕ × ℕ) → List Vertex → List Face → List (ℕ × ℕ) →
    Option (List Vertex × List Face × List (ℕ × ℕ))
  | [], verts, faces, vmap => some (verts, faces, vmap)
  | e :: rest, verts, faces, vmap =>
    match addVertex mesh verts vmap e.1 with
    | none => none
    | some vv1 =>
      match addVertex mesh vv1.1 vv1.2 e.2 with
      | none => none
      | some vv2 =>
        match lookupV vv2.2 e.1 with
        | none => none
        | some nidx =>
          cutLoop mesh rest vv2.1 (faces.map (remapFace e.1 nidx)) vv2.2

/-- apply_topological_cut (bindings.rs lines 225-255); a seam index out of
the vertex range (a Rust panic) yields none. -/
def apply_topological_cut (mesh : MeshData) (seam : List (ℕ × ℕ)) :
    Option MeshData :=
  match cutLoop mesh seam mesh.vertices mesh.faces [] with
  | none => none
  | some res =>
    some { vertices := res.1, faces := res.2.1, bounds := mesh.bounds }

lemma lookupV_isSome_iff (m : List (ℕ × ℕ)) (k : ℕ) :
    (lookupV m k).isSome ↔ k ∈ m.map Prod.fst := by
  induction m with
  | nil => simp [lookupV]
  | cons a t ih =>
    by_cases h : a.1 = k
    · simp [lookupV, List.find?_cons, h]
    · have hb : (a.1 == k) = false := by simp [h]
      simp only [lookupV, List.find?_cons, hb, List.map_cons, List.mem_cons]
      rw [← lookupV]
      rw [ih]
      constructor
      · intro hm; exact Or.inr hm
      · intro hm
        rcases hm with hm | hm
        · exact absurd hm.symm h
        · exact hm

lemma addVertex_spec (mesh : MeshData) (verts : List Vertex)
    (vmap : List (ℕ × ℕ)) (k : ℕ) (vv : List Vertex × List (ℕ × ℕ))
    (h : addVertex mesh verts vmap k = some vv) :
    (vv.1.length = verts.length ∧ vv.2 = vmap ∧ k ∈ vmap.map Prod.fst) ∨
    (vv.1.length = verts.length + 1 ∧ vv.2 = vmap ++ [(k, verts.length)] ∧
      k ∉ vmap.map Prod.fst) := by
  unfold addVertex at h
  split_ifs at h with hmem
  · left
    obtain ⟨h1, h2⟩ := Prod.mk.injEq .. ▸ Option.some.injEq .. ▸ h
    · exact ⟨by rw [← h1], by rw [← h2], (lookupV_isSome_iff vmap k).mp hmem⟩
  · right
    match hg : mesh.vertices.get? k with
    | none => rw [hg] at h; exact absurd h (by simp)
    | some v =>
      rw [hg] at h
      simp only [Option.some.injEq] at h
      refine ⟨?_, ?_, ?_⟩
      · rw [← h]; simp
      · rw [← h]
      · intro hmem2
        exact hmem ((lookupV_isSome_iff vmap k).mpr hmem2)

lemma addVertex_some_of_lt (mesh : MeshData) (verts : List Vertex)
    (vmap : List (ℕ × ℕ)) (k : ℕ) (hk : k < mesh.vertices.length) :
    (addVertex mesh verts vmap k).isSome := by
  unfold addVertex
  split_ifs with hmem
  · simp
  · match hg : mesh.vertices.get? k with
    | none =>
      rw [List.get?_eq_getElem?] at hg
      rw [List.getElem?_eq_getElem hk] at hg
      exact absurd hg (by simp)
    | some v => simp

lemma addVertex_mem_keys (mesh : MeshData) (verts : List Vertex)
    (vmap : List (ℕ × ℕ)) (k : ℕ) (vv : List Vertex × List (ℕ × ℕ))
    (h : addVertex mesh verts vmap k = some vv) : k ∈ vv.2.map Prod.fst := by
  rcases addVertex_spec mesh verts vmap k vv h with ⟨_, h2, h3⟩ | ⟨_, h2, _⟩
  · rw [h2]; exact h3
  · rw [h2]; simp

lemma addVertex_keys_mono (mesh : MeshData) (verts : List Vertex)
    (vmap : List (ℕ × ℕ)) (k k2 : ℕ) (vv : List Vertex × List (ℕ × ℕ))
    (h : addVertex mesh verts vmap k = some vv) (hm : k2 ∈ vmap.map Prod.fst) :
    k2 ∈ vv.2.map Prod.fst := by
  rcases addVertex_spec mesh verts vmap k vv h with ⟨_, h2, _⟩ | ⟨_, h2, _⟩ <;>
    rw [h2] <;> simp [hm]

lemma cutLoop_spec (mesh : MeshData) :
    ∀ (seam : List (ℕ × ℕ)) (verts : List Vertex) (faces : List Face)
      (vmap : List (ℕ × ℕ)),
      (∀ e ∈ seam, e.1 < mesh.vertices.length ∧ e.2 < mesh.vertices.length) →
      (vmap.map Prod.fst).Nodup →
      verts.length = mesh.vertices.length + vmap.length →
      ∃ res, cutLoop mesh seam verts faces vmap = some res ∧
        res.2.1.length = faces.length ∧
        res.1.length = mesh.vertices.length +
          ((vmap.map Prod.fst).toFinset ∪
            (seam.bind (fun e => [e.1, e.2])).toFinset).card := by
  intro seam
  induction seam with
  | nil =>
    intro verts faces vmap hin hnd hlen
    refine ⟨(verts, faces, vmap), rfl, rfl, ?_⟩
    have hb : (([] : List (ℕ × ℕ)).bind (fun e => [e.1, e.2])) = [] := rfl
    rw [hb, List.toFinset_nil, Finset.union_empty,
      List.toFinset_card_of_nodup hnd, List.length_map]
    exact hlen
  | cons e rest ih =>
    intro verts faces vmap hin hnd hlen
    have hine := hin e (List.mem_cons_self e rest)
    -- first vertex of the edge
    have h1some := addVertex_some_of_lt mesh verts vmap e.1 hine.1
    obtain ⟨vv1, hvv1⟩ := Option.isSome_iff_exists.mp h1some
    -- maintained invariants after the first insertion
    have hspec1 := addVertex_spec mesh verts vmap e.1 vv1 hvv1
    have hnd1 : (vv1.2.map Prod.fst).Nodup := by
      rcases hspec1 with ⟨_, h2, _⟩ | ⟨_, h2, h3⟩
      · rw [h2]; exact hnd
      · rw [h2, List.map_append]
        rw [List.nodup_append]
        refine ⟨hnd, by simp, ?_⟩
        intro x hx hx2
        simp at hx2
        rw [hx2] at hx
        exact h3 hx
    have hlen1 : vv1.1.length = mesh.vertices.length + vv1.2.length := by
      rcases hspec1 with ⟨h1, h2, _⟩ | ⟨h1, h2, _⟩
      · rw [h1, h2]; exact hlen
      · rw [h1, h2, List.length_append]
        simp only [List.length_cons, List.length_nil]
        omega
    have hkeys1 : (vv1.2.map Prod.fst).toFinset
        = (vmap.map Prod.fst).toFinset ∪ {e.1} := by
      rcases hspec1 with ⟨_, h2, h3⟩ | ⟨_, h2, _⟩
      · rw [h2]
        ext x
        simp only [Finset.mem_union, Finset.mem_singleton, List.mem_toFinset]
        constructor
        · exact Or.inl
        · intro hx; rcases hx with hx | hx
          · exact hx
          · rw [hx]; exact h3
      · rw [h2, List.map_append]
        rw [List.toFinset_append]
        simp
    -- second vertex of the edge
    have h2some := addVertex_some_of_lt mesh vv1.1 vv1.2 e.2 hine.2
    obtain ⟨vv2, hvv2⟩ := Option.isSome_iff_exists.mp h2some
    have hspec2 := addVertex_spec mesh vv1.1 vv1.2 e.2 vv2 hvv2
    have hnd2 : (vv2.2.map Prod.fst).Nodup := by
      rcases hspec2 with ⟨_, h2, _⟩ | ⟨_, h2, h3⟩
      · rw [h2]; exact hnd1
      · rw [h2, List.map_append]
        rw [List.nodup_append]
        refine ⟨hnd1, by simp, ?_⟩
        intro x hx hx2
        simp at hx2
        rw [hx2] at hx
        exact h3 hx
    have hlen2 : vv2.1.length = mesh.vertices.length + vv2.2.length := by
      rcases hspec2 with ⟨h1, h2, _⟩ | ⟨h1, h2, _⟩
      · rw [h1, h2]; exact hlen1
      · rw [h1, h2, List.length_append]
        simp only [List.length_cons, List.length_nil]
        omega
    have hkeys2 : (vv2.2.map Prod.fst).toFinset
        = (vv1.2.map Prod.fst).toFinset ∪ {e.2} := by
      rcases hspec2 with ⟨_, h2, h3⟩ | ⟨_, h2, _⟩
      · rw [h2]
        ext x
        simp only [Finset.mem_union, Finset.mem_singleton, List.mem_toFinset]
        constructor
        · exact Or.inl
        · intro hx; rcases hx with hx | hx
          · exact hx
          · rw [hx]; exact h3
      · rw [h2, List.map_append]
        rw [List.toFinset_append]
        simp
    -- the unwrap of vertex_map[&v0] succeeds
    have hmem1 : e.1 ∈ vv2.2.map Prod.fst := by
      rcases hspec2 with ⟨_, h2, _⟩ | ⟨_, h2, _⟩ <;> rw [h2]
      · exact addVertex_mem_keys mesh verts vmap e.1 vv1 hvv1
      · rw [List.map_append]
        exact List.mem_append_left _ (addVertex_mem_keys mesh verts vmap e.1 vv1 hvv1)
    have hlsome : (lookupV vv2.2 e.1).isSome := (lookupV_isSome_iff _ _).mpr hmem1
    obtain ⟨nidx, hnidx⟩ := Option.isSome_iff_exists.mp hlsome
    -- recurse
    have hin2 : ∀ e2 ∈ rest, e2.1 < mesh.vertices.length ∧ e2.2 < mesh.vertices.length :=
      fun e2 he2 => hin e2 (List.mem_cons_of_mem e he2)
    obtain ⟨res, hres, hfl, hvl⟩ :=
      ih vv2.1 (faces.map (remapFace e.1 nidx)) vv2.2 hin2 hnd2 hlen2
    refine ⟨res, ?_, ?_, ?_⟩
    · simp only [cutLoop, hvv1, hvv2, hnidx]
      exact hres
    · rw [hfl, List.length_map]
    · rw [hvl, hkeys2, hkeys1]
      congr 2
      have hbind : ((e :: rest).bind (fun q => [q.1, q.2]))
          = e.1 :: e.2 :: rest.bind (fun q => [q.1, q.2]) := rfl
      rw [hbind]
      ext x
      simp only [Finset.mem_union, Finset.mem_singleton, List.mem_toFinset,
        List.mem_cons]
      tauto

/-- Claim C7: for every mesh and seam whose vertex indices are in range,
apply_topological_cut succeeds and returns a mesh with exactly as many
faces as the input and with vertex count increased by exactly the number
of distinct vertices occurring in the seam edges. -/
theorem claim_C7 (mesh : MeshData) (seam : List (ℕ × ℕ))
    (hin : ∀ e ∈ seam, e.1 < mesh.vertices.length ∧ e.2 < mesh.vertices.length) :
    ∃ m, apply_topological_cut mesh seam = some m ∧
      m.faces.length = mesh.faces.length ∧
      m.vertices.length = mesh.vertices.length +
        (seam.bind (fun e => [e.1, e.2])).toFinset.card := by
  obtain ⟨res, hres, hfl, hvl⟩ :=
    cutLoop_spec mesh seam mesh.vertices mesh.faces [] hin (by simp) (by simp)
  refine ⟨{ vertices := res.1, faces := res.2.1, bounds := mesh.bounds }, ?_, hfl, ?_⟩
  · unfold apply_topological_cut
    rw [hres]
  · rw [hvl]
    simp

/-- Witness for claim C7: a three-vertex one-face mesh cut along one edge. -/
theorem claim_C7_witness :
    (∀ e ∈ [((0 : ℕ), (1 : ℕ))],
      e.1 < (MeshData.mk
        [Vertex.mk (0,0,0) (0,0,0) (0,0) none, Vertex.mk (0,0,0) (0,0,0) (0,0) none,
         Vertex.mk (0,0,0) (0,0,0) (0,0) none] [Face.mk 0 1 2]
        (BoundingBox.mk (0,0,0) (0,0,0))).vertices.length ∧
      e.2 < (MeshData.mk
        [Vertex.mk (0,0,0) (0,0,0) (0,0) none, Vertex.mk (0,0,0) (0,0,0) (0,0) none,
         Vertex.mk (0,0,0) (0,0,0) (0,0) none] [Face.mk 0 1 2]
        (BoundingBox.mk (0,0,0) (0,0,0))).vertices.length) ∧
    ∃ m, apply_topological_cut (MeshData.mk
        [Vertex.mk (0,0,0) (0,0,0) (0,0) none, Vertex.mk (0,0,0) (0,0,0) (0,0) none,
         Vertex.mk (0,0,0) (0,0,0) (0,0) none] [Face.mk 0 1 2]
        (BoundingBox.mk (0,0,0) (0,0,0))) [((0 : ℕ), (1 : ℕ))] = some m ∧
      m.faces.length = 1 ∧
      m.vertices.length = 3 + ([((0 : ℕ), (1 : ℕ))].bind (fun e => [e.1, e.2])).toFinset.card := by
  constructor
  · decide
  · exact claim_C7 _ [((0 : ℕ), (1 : ℕ))] (by decide)

/-- gaussian_smooth (radius.rs lines 4-44); `exp` goes through the oracle
record, the f64 `ceil as usize` cast saturates at zero. -/
def gaussian_smooth (O : Oracles) (values : List ℚ) (sigma : ℚ) : List ℚ :=
  if values.length ≤ 2 then values
  else
    let kernel_size := max (⌈(6 : ℚ) * sigma⌉.toNat) 1
    let kernel := (List.range (2 * kernel_size + 1)).map
      (fun k : ℕ =>
        let x : ℚ := (((k : ℤ) - (kernel_size : ℤ) : ℤ) : ℚ)
        O.expO (-x * x / (2 * sigma * sigma)))
    let kernel_sum := kernel.sum
    let kernelN := kernel.map (fun v => v / kernel_sum)
    (List.range values.length).map (fun i : ℕ =>
      let weighted_sum := ((List.range kernelN.length).map (fun k : ℕ =>
        let offset : ℤ := (k : ℤ) - (kernel_size : ℤ)
        let idx := (min (max ((i : ℤ) + offset) 0) ((values.length : ℤ) - 1)).toNat
        values.getD idx 0 * kernelN.getD k 0)).sum
      let weight_sum := ((List.range kernelN.length).map
        (fun k : ℕ => kernelN.getD k 0)).sum
      weighted_sum / weight_sum)

/-- calculate_radius_profile (radius.rs lines 47-64). -/
def calculate_radius_profile (O : Oracles) (samples : List Point2D) : List ℚ :=
  if samples.isEmpty then []
  else
    let radii := samples.map (fun p => fmax p.x 0)
    let spacing :=
      if 1 < samples.length then
        (((samples.getLast?).getD (Point2D.mk 0 0)).y
            - ((samples.head?).getD (Point2D.mk 0 0)).y)
          / ((samples.length : ℚ) - 1)
      else 1
    let sigma := (1/2) * spacing
    gaussian_smooth O radii sigma

lemma sum_map_mul_left_q {α : Type} (l : List α) (f : α → ℚ) (c : ℚ) :
    (l.map (fun x => c * f x)).sum = c * (l.map f).sum := by
  induction l with
  | nil => simp
  | cons a t ih =>
    simp only [List.map_cons, List.sum_cons, ih]
    ring

lemma sum_map_div_q (l : List ℚ) (S : ℚ) :
    (l.map (fun v => v / S)).sum = l.sum / S := by
  induction l with
  | nil => simp
  | cons a t ih => simp [ih, add_div]

lemma map_getD_range_self (l : List ℚ) :
    (List.range l.length).map (fun k => l.getD k 0) = l := by
  induction l with
  | nil => rfl
  | cons a t ih =>
    rw [List.length_cons, List.range_succ_eq_map, List.map_cons]
    rw [List.map_map]
    have h2 : ((fun k => (a :: t).getD k 0) ∘ Nat.succ) = fun k => t.getD k 0 := by
      funext k
      simp [List.getD_cons_succ]
    rw [h2]
    rw [ih]
    rfl

lemma getD_all_const {l : List ℚ} {c : ℚ} (h : ∀ v ∈ l, v = c) {k : ℕ}
    (hk : k < l.length) : l.getD k 0 = c := by
  rw [List.getD_eq_getElem l 0 hk]
  exact h _ (List.getElem_mem hk)

lemma map_const_of_all {l : List ℚ} {c : ℚ} (h : ∀ v ∈ l, v = c) :
    l = l.map (fun _ => c) := by
  induction l with
  | nil => rfl
  | cons a t ih =>
    rw [List.map_cons]
    rw [h a (List.mem_cons_self a t)]
    rw [← ih (fun v hv => h v (List.mem_cons_of_mem a hv))]

lemma gaussian_smooth_const (O : Oracles) (sigma : ℚ) (l : List ℚ) (c : ℚ)
    (hexp : ∀ x, 0 < O.expO x) (hl : ∀ v ∈ l, v = c) :
    gaussian_smooth O l sigma = l.map (fun _ => c) := by
  unfold gaussian_smooth
  split_ifs with hlen
  · exact map_const_of_all hl
  · push_neg at hlen
    set K := max (⌈(6 : ℚ) * sigma⌉.toNat) 1 with hK
    set kernel := (List.range (2 * K + 1)).map
      (fun k : ℕ =>
        let x : ℚ := (((k : ℤ) - (K : ℤ) : ℤ) : ℚ)
        O.expO (-x * x / (2 * sigma * sigma))) with hkernel
    have hkpos : ∀ v ∈ kernel, 0 < v := by
      intro v hv
      rw [hkernel] at hv
      rw [List.mem_map] at hv
      obtain ⟨k, _, hveq⟩ := hv
      rw [← hveq]
      exact hexp _
    have hkne : kernel ≠ [] := by
      rw [hkernel]
      simp [List.range_succ]
    have hS : 0 < kernel.sum := List.sum_pos kernel hkpos hkne
    have hSne : kernel.sum ≠ 0 := ne_of_gt hS
    set kernelN := kernel.map (fun v => v / kernel.sum) with hkernelN
    have hWsum : kernelN.sum = 1 := by
      rw [hkernelN, sum_map_div_q, div_self hSne]
    have hW : ((List.range kernelN.length).map
        (fun k : ℕ => kernelN.getD k 0)).sum = 1 := by
      rw [map_getD_range_self kernelN]
      exact hWsum
    -- each smoothed entry equals c
    have hentry : ∀ i ∈ List.range l.length,
        (((List.range kernelN.length).map (fun k : ℕ =>
          let offset : ℤ := (k : ℤ) - (K : ℤ)
          let idx := (min (max ((i : ℤ) + offset) 0) ((l.length : ℤ) - 1)).toNat
          l.getD idx 0 * kernelN.getD k 0)).sum)
          / (((List.range kernelN.length).map (fun k : ℕ => kernelN.getD k 0)).sum)
          = c := by
      intro i _
      rw [hW]
      have hmap : ((List.range kernelN.length).map (fun k : ℕ =>
          let offset : ℤ := (k : ℤ) - (K : ℤ)
          let idx := (min (max ((i : ℤ) + offset) 0) ((l.length : ℤ) - 1)).toNat
          l.getD idx 0 * kernelN.getD k 0))
          = (List.range kernelN.length).map (fun k : ℕ => c * kernelN.getD k 0) := by
        apply List.map_congr_left
        intro k _
        dsimp only
        have hidx : (min (max ((i : ℤ) + ((k : ℤ) - (K : ℤ))) 0)
            ((l.length : ℤ) - 1)).toNat < l.length := by
          have h1 : (0 : ℤ) ≤ max ((i : ℤ) + ((k : ℤ) - (K : ℤ))) 0 := le_max_right _ _
          have h2 : min (max ((i : ℤ) + ((k : ℤ) - (K : ℤ))) 0)
              ((l.length : ℤ) - 1) ≤ (l.length : ℤ) - 1 := min_le_right _ _
          omega
        rw [getD_all_const hl hidx]
      rw [hmap]
      have hmul := sum_map_mul_left_q (List.range kernelN.length)
        (fun k : ℕ => kernelN.getD k 0) c
      rw [hmul, hW]
      simp
    rw [List.map_congr_left hentry]
    have hlenmap : (List.range l.length).map (fun _ => c) = l.map (fun _ => c) := by
      rw [List.map_const', List.map_const', List.length_range]
    exact hlenmap

/-- Claim C8: Gaussian smoothing preserves constant sequences exactly:
for samples whose radii (x-coordinates) all equal the same non-negative
value c, calculate_radius_profile returns a sequence of the same length
with every entry equal to c, for every positive-valued exp oracle. -/
theorem claim_C8 (O : Oracles) (samples : List Point2D) (c : ℚ)
    (hexp : ∀ x, 0 < O.expO x) (hc : 0 ≤ c)
    (hall : ∀ p ∈ samples, p.x = c) :
    calculate_radius_profile O samples = samples.map (fun _ => c) := by
  have hradii : ∀ v ∈ samples.map (fun p => fmax p.x 0), v = c := by
    intro v hv
    rw [List.mem_map] at hv
    obtain ⟨p, hp, he⟩ := hv
    rw [← he, hall p hp]
    unfold fmax
    rw [if_neg (not_lt.mpr hc)]
  unfold calculate_radius_profile
  split_ifs with hemp hsp
  · rw [List.isEmpty_iff.mp hemp]
    rfl
  · rw [gaussian_smooth_const O _ _ c hexp hradii]
    rw [List.map_map]
    rfl
  · rw [gaussian_smooth_const O _ _ c hexp hradii]
    rw [List.map_map]
    rfl

/-- Oracle record with positive exp and unit arc-length components, used
by witnesses. -/
def posOracles : Oracles :=
  { expO := fun _ => 1, lnO := fun _ => 0, sqrtO := fun _ => 0,
    arcLenO := fun _ _ _ _ => 1, findTO := fun _ _ _ _ _ => 0,
    rnd := fun _ => 0 }

/-- Witness for claim C8 on three constant-radius samples. -/
theorem claim_C8_witness :
    (∀ x, 0 < posOracles.expO x) ∧ (0 : ℚ) ≤ 0 ∧
    (∀ p ∈ [Point2D.mk 0 0, Point2D.mk 0 1, Point2D.mk 0 2], p.x = 0) ∧
    calculate_radius_profile posOracles
        [Point2D.mk 0 0, Point2D.mk 0 1, Point2D.mk 0 2]
      = [Point2D.mk 0 0, Point2D.mk 0 1, Point2D.mk 0 2].map (fun _ => (0 : ℚ)) :=
  ⟨fun _ => zero_lt_one, le_refl 0, by simp,
   claim_C8 posOracles [Point2D.mk 0 0, Point2D.mk 0 1, Point2D.mk 0 2] 0
     (fun _ => zero_lt_one) (le_refl 0) (by simp)⟩

/-- Default spline segment for getD-based indexing. -/
def dfltSeg : SplineSegment :=
  { start := ⟨0, 0⟩, control1 := ⟨0, 0⟩, control2 := ⟨0, 0⟩, seg_end := ⟨0, 0⟩ }

/-- segment_arc_length (sampling.rs lines 4-41): adaptive Simpson
integration over f64, abstracted into the oracle record (its recursion
has no structural termination measure); the claims hold for every value
it could return. -/
def segment_arc_length (O : Oracles) (s : SplineSegment) : ℚ :=
  O.arcLenO (s.start.x, s.start.y) (s.control1.x, s.control1.y)
    (s.control2.x, s.control2.y) (s.seg_end.x, s.seg_end.y)

/-- find_t_for_arc_length (sampling.rs lines 44-76): Newton iteration over
f64, abstracted into the oracle record; the claims hold for every value
it could return. -/
def find_t_for_arc_length (O : Oracles) (s : SplineSegment) (target : ℚ) : ℚ :=
  O.findTO (s.start.x, s.start.y) (s.control1.x, s.control1.y)
    (s.control2.x, s.control2.y) (s.seg_end.x, s.seg_end.y) target

/-- The segment-search loop of sample_profile_curve (sampling.rs lines
117-124): walk the segment lengths until the accumulated length reaches
the target; if the loop exhausts without the break, segment_idx keeps its
initial value 0, as in the source. -/
def findSegment : List ℚ → ℚ → ℕ → ℚ → ℕ × ℚ
  | [], _, _, acc => (0, acc)
  | len :: rest, target, idx, acc =>
    if target ≤ acc + len then (idx, acc)
    else findSegment rest target (idx + 1) (acc + len)

/-- sample_profile_curve (sampling.rs lines 79-138). -/
def sample_profile_curve (O : Oracles) (curve : ProfileCurve)
    (num_samples : ℕ) : List Point2D :=
  if curve.segments.isEmpty then []
  else if num_samples = 0 then []
  else if num_samples = 1 then [(curve.segments.head?.getD dfltSeg).start]
  else
    let segment_lengths := curve.segments.map (fun seg => segment_arc_length O seg)
    let total_length := segment_lengths.sum
    if total_length < 1/10000000000 then
      [(curve.segments.head?.getD dfltSeg).start]
    else
      let spacing := total_length / ((num_samples : ℚ) - 1)
      let mid := (List.range' 1 (num_samples - 2)).map (fun i : ℕ =>
        let target_arc_length := (i : ℚ) * spacing
        let fs := findSegment segment_lengths target_arc_length 0 0
        let seg := curve.segments.getD fs.1 dfltSeg
        let t := find_t_for_arc_length O seg (target_arc_length - fs.2)
        seg.evaluate t)
      [(curve.segments.head?.getD dfltSeg).start] ++ mid
        ++ [(curve.segments.getLast?.getD dfltSeg).seg_end]

/-- Claim C5: for a curve with at least one segment whose total computed
arc length is at least 1e-10 and any sample count N ≥ 2,
sample_profile_curve returns exactly N points, the first being the first
segment's start point and the last the last segment's end point. -/
theorem claim_C5 (O : Oracles) (curve : ProfileCurve) (N : ℕ)
    (hseg : curve.segments ≠ []) (hN : 2 ≤ N)
    (htot : (1 : ℚ)/10000000000
      ≤ ((curve.segments.map (fun seg => segment_arc_length O seg)).sum)) :
    (sample_profile_curve O curve N).length = N ∧
    (sample_profile_curve O curve N).head?
      = some ((curve.segments.head?.getD dfltSeg).start) ∧
    (sample_profile_curve O curve N).getLast?
      = some ((curve.segments.getLast?.getD dfltSeg).seg_end) := by
  unfold sample_profile_curve
  rw [if_neg (by simpa using hseg)]
  rw [if_neg (by omega : ¬ N = 0)]
  rw [if_neg (by omega : ¬ N = 1)]
  rw [if_neg (not_lt.mpr htot)]
  refine ⟨?_, ?_, ?_⟩
  · simp only [List.length_append, List.length_map, List.length_range',
      List.length_cons, List.length_nil]
    omega
  · simp
  · rw [List.getLast?_concat]

/-- Witness for claim C5 on a one-segment curve and N = 3, with the
unit-arc-length oracle. -/
theorem claim_C5_witness :
    (ProfileCurve.mk [dfltSeg] 0 0).segments ≠ [] ∧ 2 ≤ 3 ∧
    ((1 : ℚ)/10000000000
      ≤ (((ProfileCurve.mk [dfltSeg] 0 0).segments.map
          (fun seg => segment_arc_length posOracles seg)).sum)) ∧
    ((sample_profile_curve posOracles (ProfileCurve.mk [dfltSeg] 0 0) 3).length = 3 ∧
     (sample_profile_curve posOracles (ProfileCurve.mk [dfltSeg] 0 0) 3).head?
       = some (((ProfileCurve.mk [dfltSeg] 0 0).segments.head?.getD dfltSeg).start) ∧
     (sample_profile_curve posOracles (ProfileCurve.mk [dfltSeg] 0 0) 3).getLast?
       = some (((ProfileCurve.mk [dfltSeg] 0 0).segments.getLast?.getD dfltSeg).seg_end)) := by
  have hsum : (((ProfileCurve.mk [dfltSeg] 0 0).segments.map
      (fun seg => segment_arc_length posOracles seg)).sum) = 1 := by
    simp [segment_arc_length, posOracles]
  refine ⟨by simp, by omega, by rw [hsum]; norm_num, ?_⟩
  exact claim_C5 posOracles (ProfileCurve.mk [dfltSeg] 0 0) 3 (by simp) (by omega)
    (by rw [hsum]; norm_num)

/-- Counterexample to claim C9 as stated: on a degenerate one-segment
curve whose computed total arc length is 0 (below 1e-10) and N = 3
requested samples, sample_profile_curve returns ONE copy of the start
point, not one copy per requested sample. -/
theorem claim_C9_counterexample :
    sample_profile_curve zeroOracles (ProfileCurve.mk [dfltSeg] 0 0) 3
      ≠ List.replicate 3 (Point2D.mk 0 0) ∧
    (sample_profile_curve zeroOracles (ProfileCurve.mk [dfltSeg] 0 0) 3).length = 1 := by
  have heval : sample_profile_curve zeroOracles (ProfileCurve.mk [dfltSeg] 0 0) 3
      = [Point2D.mk 0 0] := by
    unfold sample_profile_curve
    rw [if_neg (by simp)]
    rw [if_neg (by omega : ¬ (3 : ℕ) = 0)]
    rw [if_neg (by omega : ¬ (3 : ℕ) = 1)]
    rw [if_pos (by simp [segment_arc_length, zeroOracles])]
    rfl
  constructor
  · rw [heval]
    intro h
    have hlen := congrArg List.length h
    simp at hlen
  · rw [heval]
    rfl

/-- Claim C9 amended: an empty curve yields an empty output; a non-empty
curve whose computed total arc length is below 1e-10 (with N ≥ 2) yields
the single start point, one copy regardless of the requested sample
count. -/
theorem claim_C9_amended (O : Oracles) (curve : ProfileCurve) (N : ℕ) :
    (curve.segments = [] → sample_profile_curve O curve N = []) ∧
    (curve.segments ≠ [] → N ≠ 0 → N ≠ 1 →
      ((curve.segments.map (fun seg => segment_arc_length O seg)).sum
        < 1/10000000000) →
      sample_profile_curve O curve N
        = [(curve.segments.head?.getD dfltSeg).start]) := by
  constructor
  · intro h
    unfold sample_profile_curve
    rw [if_pos (by simp [h])]
  · intro h1 h2 h3 h4
    unfold sample_profile_curve
    rw [if_neg (by simpa using h1), if_neg h2, if_neg h3, if_pos h4]

/-- Witness for the amended claim C9 at the degenerate curve and N = 3. -/
theorem claim_C9_amended_witness :
    (ProfileCurve.mk [dfltSeg] 0 0).segments ≠ [] ∧ (3 : ℕ) ≠ 0 ∧ (3 : ℕ) ≠ 1 ∧
    (((ProfileCurve.mk [dfltSeg] 0 0).segments.map
        (fun seg => segment_arc_length zeroOracles seg)).sum < 1/10000000000) ∧
    sample_profile_curve zeroOracles (ProfileCurve.mk [dfltSeg] 0 0) 3
      = [((ProfileCurve.mk [dfltSeg] 0 0).segments.head?.getD dfltSeg).start] := by
  have hsum : (((ProfileCurve.mk [dfltSeg] 0 0).segments.map
      (fun seg => segment_arc_length zeroOracles seg)).sum) = 0 := by
    simp [segment_arc_length, zeroOracles]
  refine ⟨by simp, by omega, by omega, by rw [hsum]; norm_num, ?_⟩
  exact (claim_C9_amended zeroOracles (ProfileCurve.mk [dfltSeg] 0 0) 3).2
    (by simp) (by omega) (by omega) (by rw [hsum]; norm_num)

/-- The 30-iteration bisection of find_t_for_height (generator.rs lines
65-94), recursing on the remaining iteration count. -/
def bisectHeight (segment : SplineSegment) (target_y : ℚ) (increasing : Bool) :
    ℕ → ℚ → ℚ → ℚ
  | 0, t_min, t_max => (t_min + t_max) / 2
  | k + 1, t_min, t_max =>
    let t := (t_min + t_max) / 2
    let point := segment.evaluate t
    if |point.y - target_y| < 1/1000000 then t
    else if increasing then
      if point.y < target_y then bisectHeight segment target_y increasing k t t_max
      else bisectHeight segment target_y increasing k t_min t
    else
      if target_y < point.y then bisectHeight segment target_y increasing k t t_max
      else bisectHeight segment target_y increasing k t_min t

/-- find_t_for_height (generator.rs lines 39-95). -/
def find_t_for_height (segment : SplineSegment) (target_y : ℚ) : ℚ :=
  let start_y := segment.start.y
  let end_y := segment.seg_end.y
  if |target_y - start_y| < 1/1000000 then 0
  else if |target_y - end_y| < 1/1000000 then 1
  else
    let pr := if start_y < end_y then (start_y, end_y) else (end_y, start_y)
    if target_y < pr.1 then (if start_y < end_y then 0 else 1)
    else if pr.2 < target_y then (if start_y < end_y then 1 else 0)
    else bisectHeight segment target_y (decide (start_y < end_y)) 30 0 1

/-- The segment-search loop of find_radius_at_height (generator.rs lines
10-27), falling back to the nearest endpoint (lines 29-35) when no
segment covers the height. -/
def findRadiusLoop (curve : ProfileCurve) (target_height : ℚ) :
    List SplineSegment → ℚ
  | [] =>
    if target_height < (curve.segments.head?.getD dfltSeg).start.y then
      fmax (curve.segments.head?.getD dfltSeg).start.x 0
    else
      fmax (curve.segments.getLast?.getD dfltSeg).seg_end.x 0
  | seg :: rest =>
    let pr := if seg.start.y < seg.seg_end.y then (seg.start.y, seg.seg_end.y)
              else (seg.seg_end.y, seg.start.y)
    if pr.1 ≤ target_height ∧ target_height ≤ pr.2 then
      let t := find_t_for_height seg target_height
      fmax (seg.evaluate t).x 0
    else
      findRadiusLoop curve target_height rest

/-- find_radius_at_height (generator.rs lines 8-36). -/
def find_radius_at_height (curve : ProfileCurve) (target_height : ℚ) : ℚ :=
  findRadiusLoop curve target_height curve.segments

/-- The continuity loop of validate_curve (generator.rs lines 224-234). -/
def continuityCheck (O : Oracles) : List SplineSegment → Except PatternError Unit
  | s1 :: s2 :: rest =>
    if 1/1000000 < Point2D.distance_to O s1.seg_end s2.start then
      .error (.InvalidProfileCurve "Curve segments are not continuous")
    else continuityCheck O (s2 :: rest)
  | _ => .ok ()

/-- validate_curve (generator.rs lines 204-237). -/
def validate_curve (O : Oracles) (curve : ProfileCurve) :
    Except PatternError Unit :=
  if curve.segments.isEmpty then
    .error (.InvalidProfileCurve "Curve has no segments")
  else if curve.start_radius < 0 then
    .error (.InvalidProfileCurve "Start radius must be non-negative")
  else if curve.end_radius < 0 then
    .error (.InvalidProfileCurve "End radius must be non-negative")
  else
    continuityCheck O curve.segments

/-- validate_config (generator.rs lines 240-266). -/
def validate_config (config : AmigurumiConfig) : Except PatternError Unit :=
  if config.total_height_cm ≤ 0 then
    .error (.InvalidConfiguration "Height must be positive")
  else if config.yarn.gauge_stitches_per_cm ≤ 0 then
    .error (.InvalidConfiguration "Gauge stitches per cm must be positive")
  else if config.yarn.gauge_rows_per_cm ≤ 0 then
    .error (.InvalidConfiguration "Gauge rows per cm must be positive")
  else if config.yarn.recommended_hook_size_mm ≤ 0 then
    .error (.InvalidConfiguration "Hook size must be positive")
  else
    .ok ()

/-- Steps 1-2 of generate_pattern (generator.rs lines 117-144): the
per-row radii sampled from the curve. -/
def row_radii_of (curve : ProfileCurve) (config : AmigurumiConfig) : List ℚ :=
  let curve_min_y := (curve.segments.head?.getD dfltSeg).start.y
  let curve_max_y := (curve.segments.getLast?.getD dfltSeg).seg_end.y
  let curve_height := curve_max_y - curve_min_y
  let row_height := 1 / config.yarn.gauge_rows_per_cm
  let num_rows := max (roundToUsize (config.total_height_cm / row_height)) 1
  (List.range num_rows).map (fun row_idx : ℕ =>
    let config_height :=
      if row_idx = num_rows - 1 then config.total_height_cm
      else (row_idx : ℚ) * row_height
    let curve_y := curve_min_y + (config_height / config.total_height_cm) * curve_height
    find_radius_at_height curve curve_y)

/-- Step 4 of generate_pattern (generator.rs lines 156-181): the initial
rows; row 0 is the all-SC magic circle, later rows come from
generate_row_pattern against the previous count. -/
def buildRows (counts : List ℕ) : List Row :=
  (List.range counts.length).map (fun row_idx : ℕ =>
    let total := counts.getD row_idx 0
    let pattern :=
      if row_idx = 0 then
        (List.range total).map (fun i => mkInstr .SC i total)
      else
        generate_row_pattern (row_idx + 1) (counts.getD (row_idx - 1) 0) total
    { row_number := row_idx + 1, total_stitches := total, pattern := pattern })

/-- Step 5.5 of generate_pattern (generator.rs lines 187-192): validate
each row after the first against its predecessor. -/
def validateRowsLoop : Row → List Row → Except PatternError Unit
  | _, [] => .ok ()
  | prev, r :: rest =>
    match validate_pattern r prev.total_stitches with
    | .error e => .error e
    | .ok _ => validateRowsLoop r rest

def validateRows : List Row → Except PatternError Unit
  | [] => .ok ()
  | r :: rest => validateRowsLoop r rest

/-- calculate_metadata (generator.rs lines 413-438); the unused local
`radius` of the source is omitted. -/
def calculate_metadata (rows : List Row) (config : AmigurumiConfig) :
    PatternMetadata :=
  let total_rows : ℕ := rows.length
  let total_stitches : ℕ := (rows.map (fun r => r.total_stitches)).sum
  let estimated_time_minutes := ((total_stitches : ℚ) * 2) / 60
  let yarn_length_cm := (rows.map (fun r =>
    let circumference := (r.total_stitches : ℚ) / config.yarn.gauge_stitches_per_cm
    circumference + (r.total_stitches : ℚ) * 1)).sum
  { total_rows := total_rows, total_stitches := total_stitches,
    estimated_time_minutes := estimated_time_minutes,
    yarn_length_meters := yarn_length_cm / 100 }

/-- generate_pattern (generator.rs lines 98-201).  The NaN/infinity radius
guard of the source is vacuous over ℚ and is omitted. -/
def generate_pattern (O : Oracles) (curve : ProfileCurve)
    (config : AmigurumiConfig) : Except PatternError CrochetPattern :=
  match validate_curve O curve with
  | .error e => .error e
  | .ok _ =>
  match validate_config config with
  | .error e => .error e
  | .ok _ =>
    let curve_min_y := (curve.segments.head?.getD dfltSeg).start.y
    let curve_max_y := (curve.segments.getLast?.getD dfltSeg).seg_end.y
    let curve_height := curve_max_y - curve_min_y
    if curve_height ≤ 0 then
      .error (.InvalidProfileCurve "Curve must have positive height")
    else
      let row_radii := row_radii_of curve config
      if row_radii.isEmpty then
        .error (.InvalidProfileCurve "No rows generated")
      else
        let stitch_counts := calculate_stitch_counts row_radii config
        let rows := buildRows stitch_counts
        let optimized_rows := optimize_stitch_placement O rows
        match validateRows optimized_rows with
        | .error e => .error e
        | .ok _ =>
          .ok { rows := optimized_rows,
                metadata := calculate_metadata optimized_rows config }


lemma all_sc_filter_len (total L : ℕ) :
    (((List.range total).map (fun i => mkInstr .SC i L)).filter
      (fun s => s.stitch_type != StitchType.SC)).length = 0 := by
  rw [List.length_eq_zero]
  rw [List.filter_eq_nil]
  intro a ha
  rw [List.mem_map] at ha
  obtain ⟨i, _, he⟩ := ha
  rw [← he]
  simp [mkInstr]

lemma optLoop_head_all_sc (O : Oracles) (r : Row) (rest : List Row)
    (prevOpt : Option Row) (pos : ℕ)
    (h : (r.pattern.filter (fun s => s.stitch_type != StitchType.SC)).length = 0) :
    (optLoop O (r :: rest) prevOpt pos).head? = some r := by
  simp only [optLoop]
  rw [if_pos h]
  rfl

lemma buildRows_cons (c0 : ℕ) (crest : List ℕ) :
    buildRows (c0 :: crest)
      = Row.mk 1 c0 ((List.range c0).map (fun i => mkInstr .SC i c0))
        :: ((List.range crest.length).map Nat.succ).map (fun row_idx : ℕ =>
          let total := (c0 :: crest).getD row_idx 0
          let pattern :=
            if row_idx = 0 then
              (List.range total).map (fun i => mkInstr .SC i total)
            else
              generate_row_pattern (row_idx + 1)
                ((c0 :: crest).getD (row_idx - 1) 0) total
          { row_number := row_idx + 1, total_stitches := total,
            pattern := pattern }) := by
  unfold buildRows
  rw [List.length_cons, List.range_succ_eq_map, List.map_cons]
  congr 1

/-- Claim C3 amended: whenever generate_pattern succeeds, the first row
of the returned pattern consists entirely of single crochet stitches and
its stitch count is max(6, round(2*pi*max(r0, 0.5)*gauge)) for the first
sampled radius r0: at least 6, but equal to 6 only when the rounded
circumference count is at most 6. -/
theorem claim_C3_amended (O : Oracles) (curve : ProfileCurve)
    (config : AmigurumiConfig) (pat : CrochetPattern)
    (hok : generate_pattern O curve config = .ok pat) :
    ∃ row0, pat.rows.head? = some row0 ∧
      (∀ ins ∈ row0.pattern, ins.stitch_type = StitchType.SC) ∧
      6 ≤ row0.total_stitches ∧
      row0.total_stitches
        = max (roundToUsize (2 * piF
            * fmax ((row_radii_of curve config).headD 0) (1/2)
            * config.yarn.gauge_stitches_per_cm)) 6 := by
  unfold generate_pattern at hok
  split at hok
  · simp at hok
  split at hok
  · simp at hok
  dsimp only at hok
  split at hok
  · simp at hok
  split at hok
  · simp at hok
  rename_i hrad
  split at hok
  · simp at hok
  rw [Except.ok.injEq] at hok
  subst hok
  cases hradeq : row_radii_of curve config with
  | nil => rw [hradeq] at hrad; simp at hrad
  | cons r0 rrest =>
    have hcounts : calculate_stitch_counts (r0 :: rrest) config
        = max (roundToUsize (2 * piF * fmax r0 (1/2)
            * config.yarn.gauge_stitches_per_cm)) 6
          :: stitchCountsLoop config.yarn.gauge_stitches_per_cm rrest
              (max (roundToUsize (2 * piF * fmax r0 (1/2)
                * config.yarn.gauge_stitches_per_cm)) 6) := by
      simp only [calculate_stitch_counts]
    have hbuild := buildRows_cons
      (max (roundToUsize (2 * piF * fmax r0 (1/2)
        * config.yarn.gauge_stitches_per_cm)) 6)
      (stitchCountsLoop config.yarn.gauge_stitches_per_cm rrest
        (max (roundToUsize (2 * piF * fmax r0 (1/2)
          * config.yarn.gauge_stitches_per_cm)) 6))
    rw [hcounts, hbuild]
    refine ⟨Row.mk 1
        (max (roundToUsize (2 * piF * fmax r0 (1/2)
          * config.yarn.gauge_stitches_per_cm)) 6)
        ((List.range (max (roundToUsize (2 * piF * fmax r0 (1/2)
          * config.yarn.gauge_stitches_per_cm)) 6)).map
          (fun i => mkInstr .SC i (max (roundToUsize (2 * piF * fmax r0 (1/2)
            * config.yarn.gauge_stitches_per_cm)) 6))),
      ?_, ?_, ?_, ?_⟩
    · unfold optimize_stitch_placement
      exact optLoop_head_all_sc O _ _ none 0 (all_sc_filter_len _ _)
    · intro ins hins
      rw [List.mem_map] at hins
      obtain ⟨i, _, he⟩ := hins
      rw [← he]
      rfl
    · exact le_max_right _ _
    · simp

/-- Concrete profile curve used by the C3 instances: one vertical Bezier
segment at radius 2 from height 0 to height 1. -/
def curve0 : ProfileCurve :=
  { segments := [{ start := ⟨2, 0⟩, control1 := ⟨2, 1/4⟩,
                   control2 := ⟨2, 3/4⟩, seg_end := ⟨2, 1⟩ }],
    start_radius := 2, end_radius := 2 }

/-- Concrete configuration used by the C3 instances: height 0.4 cm,
gauge 3 stitches/cm and 2 rows/cm (exactly one generated row). -/
def config0 : AmigurumiConfig :=
  { total_height_cm := 2/5,
    yarn := { gauge_stitches_per_cm := 3, gauge_rows_per_cm := 2,
              recommended_hook_size_mm := 7/2 } }

lemma curve0_validate : validate_curve zeroOracles curve0 = .ok () := by
  unfold validate_curve
  rw [if_neg (by simp [curve0])]
  rw [if_neg (by norm_num [curve0])]
  rw [if_neg (by norm_num [curve0])]
  rfl

lemma config0_validate : validate_config config0 = .ok () := by
  unfold validate_config
  rw [if_neg (by norm_num [config0])]
  rw [if_neg (by norm_num [config0])]
  rw [if_neg (by norm_num [config0])]
  rw [if_neg (by norm_num [config0])]

lemma curve0_radius : find_radius_at_height curve0 1 = 2 := by
  unfold find_radius_at_height curve0
  simp only [findRadiusLoop]
  rw [if_pos (by norm_num)]
  have ht : find_t_for_height
      { start := ⟨2, 0⟩, control1 := ⟨2, 1/4⟩,
        control2 := ⟨2, 3/4⟩, seg_end := ⟨2, 1⟩ } 1 = 1 := by
    unfold find_t_for_height
    rw [if_neg (by norm_num)]
    rw [if_pos (by norm_num)]
  rw [ht]
  unfold SplineSegment.evaluate fmax
  norm_num

lemma curve0_radii : row_radii_of curve0 config0 = [2] := by
  unfold row_radii_of
  dsimp only
  have hnum : max (roundToUsize (config0.total_height_cm
      / (1 / config0.yarn.gauge_rows_per_cm))) 1 = 1 := by
    unfold roundToUsize roundF config0
    norm_num
  rw [hnum]
  have hrange : List.range 1 = [0] := rfl
  rw [hrange, List.map_cons, List.map_nil]
  rw [if_pos rfl]
  have hy : (curve0.segments.head?.getD dfltSeg).start.y
      + (config0.total_height_cm / config0.total_height_cm)
        * ((curve0.segments.getLast?.getD dfltSeg).seg_end.y
          - (curve0.segments.head?.getD dfltSeg).start.y) = 1 := by
    norm_num [curve0, config0, dfltSeg]
  rw [hy, curve0_radius]

lemma counts0 : calculate_stitch_counts [2] config0 = [38] := by
  unfold calculate_stitch_counts stitchCountsLoop
  dsimp only
  have hfm : fmax (2 : ℚ) (1/2) = 2 := by
    unfold fmax
    norm_num
  rw [hfm]
  have hr : roundToUsize (2 * piF * 2 * config0.yarn.gauge_stitches_per_cm) = 38 := by
    unfold roundToUsize roundF config0 piF
    norm_num
    rfl
  rw [hr]
  norm_num

lemma build0 : buildRows [38]
    = [Row.mk 1 38 ((List.range 38).map (fun i => mkInstr .SC i 38))] := by
  unfold buildRows
  have hrange : List.range ([38] : List ℕ).length = [0] := rfl
  rw [hrange, List.map_cons, List.map_nil]
  simp

lemma opt0 : optimize_stitch_placement zeroOracles
    [Row.mk 1 38 ((List.range 38).map (fun i => mkInstr .SC i 38))]
    = [Row.mk 1 38 ((List.range 38).map (fun i => mkInstr .SC i 38))] := by
  unfold optimize_stitch_placement
  simp only [optLoop]
  rw [if_pos (all_sc_filter_len 38 38)]

/-- Evaluation of generate_pattern at the concrete C3 instance: it
succeeds and its single row is 38 single crochets. -/
lemma gp_eval : generate_pattern zeroOracles curve0 config0
    = .ok { rows := [Row.mk 1 38 ((List.range 38).map (fun i => mkInstr .SC i 38))],
            metadata := calculate_metadata
              [Row.mk 1 38 ((List.range 38).map (fun i => mkInstr .SC i 38))]
              config0 } := by
  unfold generate_pattern
  rw [curve0_validate, config0_validate]
  dsimp only
  rw [if_neg (by norm_num [curve0, dfltSeg])]
  rw [curve0_radii]
  rw [if_neg (by simp)]
  rw [counts0, build0, opt0]
  rfl

/-- Claim C3 is refuted: on the concrete curve of radius 2,
generate_pattern succeeds and the first row of the returned pattern has
38 stitches (round(2*pi*2*3) = 38), not exactly 6. -/
theorem claim_C3_counterexample :
    ∃ pat, generate_pattern zeroOracles curve0 config0 = .ok pat ∧
      pat.rows.head?.map Row.total_stitches = some 38 ∧ (38 : ℕ) ≠ 6 := by
  refine ⟨_, gp_eval, ?_, by decide⟩
  rfl

/-- Witness for claim C3 amended: instantiated at the concrete curve of
radius 2, where the pattern succeeds with a single 38-stitch row. -/
theorem claim_C3_amended_witness :
    ∃ row0,
      (CrochetPattern.mk
        [Row.mk 1 38 ((List.range 38).map (fun i => mkInstr .SC i 38))]
        (calculate_metadata
          [Row.mk 1 38 ((List.range 38).map (fun i => mkInstr .SC i 38))]
          config0)).rows.head? = some row0 ∧
      (∀ ins ∈ row0.pattern, ins.stitch_type = StitchType.SC) ∧
      6 ≤ row0.total_stitches ∧
      row0.total_stitches
        = max (roundToUsize (2 * piF
            * fmax ((row_radii_of curve0 config0).headD 0) (1/2)
            * config0.yarn.gauge_stitches_per_cm)) 6 :=
  claim_C3_amended zeroOracles curve0 config0 _ gp_eval
